import Mathlib

/-!
Verification of the hyper-vault SQL engine core.

This file gives a shallow embedding of the storage engine, parser,
planner/optimizer and executor of the repository (src/db/storage_engine.rs,
src/db/parser.rs, src/db/query.rs, src/db/executor.rs) and proves the
spec-level claims about them.

Modelling conventions:
  * `std::collections::HashMap` is modelled by association lists with
    insert-or-replace semantics; the spec forbids callers to rely on
    iteration order, and key sets of real hash maps are duplicate free,
    which appears as `Nodup` hypotheses where relevant.
  * machine integers (`u64`, `usize`, `i32`) are modelled by `Nat` / `Int`
    with explicit range conditions where overflow matters.
  * wall-clock timestamps (`SystemTime::now`) are threaded as an explicit
    `now : Nat` argument to every mutating operation.
  * `f64` cost constants of the planner are modelled by exact rationals;
    the planner only ever adds and multiplies small constant tables.
-/

namespace HyperVault

/-! ### Association lists modelling `HashMap` -/

/-- First-match lookup, modelling `HashMap::get`. -/
def alistGet {α β : Type} [DecidableEq α] (k : α) : List (α × β) → Option β
  | [] => none
  | (k', v) :: t => if k' = k then some v else alistGet k t

/-- Insert-or-replace, modelling `HashMap::insert`. -/
def alistInsert {α β : Type} [DecidableEq α] (k : α) (v : β) : List (α × β) → List (α × β)
  | [] => [(k, v)]
  | (k', v') :: t => if k' = k then (k, v) :: t else (k', v') :: alistInsert k v t

/-- Remove the entry at a key, modelling `HashMap::remove`. -/
def alistRemove {α β : Type} [DecidableEq α] (k : α) : List (α × β) → List (α × β)
  | [] => []
  | (k', v') :: t => if k' = k then t else (k', v') :: alistRemove k t

theorem alistGet_mem {α β : Type} [DecidableEq α] {k : α} {v : β} :
    ∀ {l : List (α × β)}, alistGet k l = some v → (k, v) ∈ l
  | [], h => by simp [alistGet] at h
  | (k', v') :: t, h => by
    by_cases hk : k' = k
    · simp [alistGet, hk] at h
      subst hk h
      exact List.mem_cons_self _ _
    · simp [alistGet, hk] at h
      exact List.mem_cons_of_mem _ (alistGet_mem h)

theorem mem_alistInsert {α β : Type} [DecidableEq α] {k : α} {v : β} {x : α × β} :
    ∀ {l : List (α × β)}, x ∈ alistInsert k v l → x = (k, v) ∨ x ∈ l
  | [], h => by simp [alistInsert] at h; exact Or.inl h
  | (k', v') :: t, h => by
    by_cases hk : k' = k
    · simp [alistInsert, hk] at h
      rcases h with h | h
      · exact Or.inl h
      · exact Or.inr (List.mem_cons_of_mem _ h)
    · simp only [alistInsert, if_neg hk, List.mem_cons] at h
      rcases h with h | h
      · exact Or.inr (by simp [h])
      · rcases mem_alistInsert h with h' | h'
        · exact Or.inl h'
        · exact Or.inr (List.mem_cons_of_mem _ h')

theorem mem_alistRemove {α β : Type} [DecidableEq α] {k : α} {x : α × β} :
    ∀ {l : List (α × β)}, x ∈ alistRemove k l → x ∈ l
  | [], h => by simp [alistRemove] at h
  | (k', v') :: t, h => by
    by_cases hk : k' = k
    · simp only [alistRemove, if_pos hk] at h
      exact List.mem_cons_of_mem _ h
    · simp only [alistRemove, if_neg hk, List.mem_cons] at h
      rcases h with h | h
      · simp [h]
      · exact List.mem_cons_of_mem _ (mem_alistRemove h)

theorem alistGet_insert_self {α β : Type} [DecidableEq α] {k : α} {v : β} :
    ∀ {l : List (α × β)}, alistGet k l = some v → alistInsert k v l = l
  | [], h => by simp [alistGet] at h
  | (k', v') :: t, h => by
    by_cases hk : k' = k
    · simp [alistGet, hk] at h
      simp [alistInsert, hk, h]
    · simp only [alistGet, if_neg hk] at h
      simp [alistInsert, hk, alistGet_insert_self h]

theorem alistGet_insert {α β : Type} [DecidableEq α] (k k' : α) (v : β) :
    ∀ (l : List (α × β)),
      alistGet k' (alistInsert k v l) = if k = k' then some v else alistGet k' l
  | [] => by by_cases h : k = k' <;> simp [alistGet, alistInsert, h]
  | (k₀, v₀) :: t => by
    by_cases h0 : k₀ = k
    · subst h0
      by_cases h : k₀ = k' <;> simp [alistGet, alistInsert, h]
    · by_cases h : k = k'
      · subst h
        simp [alistGet, alistInsert, h0, alistGet_insert k k v t]
      · by_cases h1 : k₀ = k'
        · subst h1
          simp [alistGet, alistInsert, h0, Ne.symm h0]
        · simp [alistGet, alistInsert, h0, h1, alistGet_insert k k' v t, h]

/-! ### Data model (src/db/schema.rs usage in storage_engine.rs) -/

/-- A row: an unordered mapping from column name to string value. -/
structure Row where
  data : List (String × String)
deriving DecidableEq, Repr

/-- A table: ordered schema columns, row-id-indexed rows, optional primary key. -/
structure Table where
  columns : List String
  rows : List (Nat × Row)
  primary_key : Option String
deriving DecidableEq, Repr

/-- Metadata record of the storage engine (`StorageMetadata`). -/
structure StorageMetadata where
  version : String
  created_at : Nat
  last_modified : Nat
  total_operations : Nat
  total_tables_created : Nat
  total_rows_inserted : Nat
  total_rows_updated : Nat
  total_rows_deleted : Nat
deriving DecidableEq, Repr

/-- The storage engine: table catalog plus metadata. -/
structure StorageEngine where
  tables : List (String × Table)
  metadata : StorageMetadata
deriving DecidableEq, Repr

/-- Storage-layer error taxonomy (`StorageError`). -/
inductive StorageError where
  | TableNotFound (table : String)
  | TableAlreadyExists (table : String)
  | ColumnNotFound (table : String) (column : String)
  | InvalidTableName (name : String)
  | InvalidSchema (msg : String)
  | PrimaryKeyViolation (table : String) (key : String) (value : String)
  | MissingPrimaryKey (table : String) (key : String)
  | IoError (msg : String)
deriving DecidableEq, Repr

/-- `Display for StorageError`. -/
def StorageError.toMessage : StorageError → String
  | .TableNotFound table => "Table '" ++ table ++ "' not found"
  | .TableAlreadyExists table => "Table '" ++ table ++ "' already exists"
  | .ColumnNotFound table column =>
      "Column '" ++ column ++ "' not found in table '" ++ table ++ "'"
  | .InvalidTableName name => "Invalid table name: '" ++ name ++ "'"
  | .InvalidSchema msg => "Invalid schema: " ++ msg
  | .PrimaryKeyViolation table key value =>
      "Primary key violation in table '" ++ table ++ "': duplicate value '" ++ value
        ++ "' for key '" ++ key ++ "'"
  | .MissingPrimaryKey table key =>
      "Missing primary key '" ++ key ++ "' in table '" ++ table ++ "'"
  | .IoError msg => "IO error: " ++ msg

/-- Rust `char::is_whitespace` (the Unicode White_Space property). -/
def rustIsWhitespace (c : Char) : Bool :=
  c = ' ' ∨ c = '\t' ∨ c = '\n' ∨ c = '\x0b' ∨ c = '\x0c' ∨ c = '\r' ∨
  c = '\u0085' ∨ c = ' ' ∨ c = ' ' ∨
  (0x2000 ≤ c.toNat ∧ c.toNat ≤ 0x200a) ∨
  c = ' ' ∨ c = ' ' ∨ c = ' ' ∨ c = ' ' ∨ c = '　'

/-- Rust `str::trim` on a character list. -/
def rustTrim (s : List Char) : List Char :=
  ((s.dropWhile rustIsWhitespace).reverse.dropWhile rustIsWhitespace).reverse

/-! ### Storage engine operations (src/db/storage_engine.rs) -/

/-- `StorageMetadata::update_timestamp`. -/
def StorageMetadata.update_timestamp (m : StorageMetadata) (now : Nat) : StorageMetadata :=
  { m with last_modified := now, total_operations := m.total_operations + 1 }

/-- `StorageEngine::new` (timestamps taken from the clock at construction). -/
def StorageEngine.new (now : Nat) : StorageEngine :=
  { tables := []
    metadata :=
      { version := "1.0.0", created_at := now, last_modified := now,
        total_operations := 0, total_tables_created := 0, total_rows_inserted := 0,
        total_rows_updated := 0, total_rows_deleted := 0 } }

/-- The duplicate detected by the `HashSet` loop in `create_table`. -/
def firstDupAux (seen : List String) : List String → Option String
  | [] => none
  | c :: rest => if seen.contains c then some c else firstDupAux (c :: seen) rest

/-- `StorageEngine::create_table`. -/
def StorageEngine.create_table (e : StorageEngine) (now : Nat) (name : String)
    (columns : List String) (primary_key : Option String) :
    Except StorageError StorageEngine :=
  if (rustTrim name.data).isEmpty then .error (.InvalidTableName name)
  else if (alistGet name e.tables).isSome then .error (.TableAlreadyExists name)
  else if columns.isEmpty then
    .error (.InvalidSchema "Table must have at least one column")
  else match firstDupAux [] columns with
  | some c => .error (.InvalidSchema ("Duplicate column name: " ++ c))
  | none =>
    match primary_key with
    | some pk =>
      if columns.contains pk then
        .ok { tables := alistInsert name
                ⟨columns, [], primary_key⟩ e.tables,
              metadata := { e.metadata.update_timestamp now with
                total_tables_created := e.metadata.total_tables_created + 1 } }
      else
        .error (.InvalidSchema
          ("Primary key '" ++ pk ++ "' must be one of the table columns"))
    | none =>
      .ok { tables := alistInsert name ⟨columns, [], primary_key⟩ e.tables,
            metadata := { e.metadata.update_timestamp now with
              total_tables_created := e.metadata.total_tables_created + 1 } }

/-- `StorageEngine::validate_row_data`: every row key must be a schema column;
the error names the table `"unknown"` exactly as the source does. -/
def validate_row_data (row : Row) (table : Table) : Option StorageError :=
  match row.data.find? (fun kv => !table.columns.contains kv.1) with
  | some kv => some (.ColumnNotFound "unknown" kv.1)
  | none => none

/-- `StorageEngine::insert_row`. -/
def StorageEngine.insert_row (e : StorageEngine) (now : Nat) (table_name : String)
    (row : Row) : Except StorageError StorageEngine :=
  match alistGet table_name e.tables with
  | none => .error (.TableNotFound table_name)
  | some table =>
    match validate_row_data row table with
    | some err => .error err
    | none =>
      match table.primary_key with
      | some pk =>
        match alistGet pk row.data with
        | some pk_value =>
          if table.rows.any (fun r => alistGet pk r.2.data == some pk_value) then
            .error (.PrimaryKeyViolation table_name pk pk_value)
          else
            .ok { tables := alistInsert table_name
                    { table with rows := alistInsert table.rows.length row table.rows }
                    e.tables,
                  metadata := { e.metadata.update_timestamp now with
                    total_rows_inserted := e.metadata.total_rows_inserted + 1 } }
        | none => .error (.MissingPrimaryKey table_name pk)
      | none =>
        .ok { tables := alistInsert table_name
                { table with rows := alistInsert table.rows.length row table.rows }
                e.tables,
              metadata := { e.metadata.update_timestamp now with
                total_rows_inserted := e.metadata.total_rows_inserted + 1 } }

/-- The update loop body: `row.data.insert(column, value)` for every pair. -/
def applyUpdates (updates : List (String × String)) (r : Row) : Row :=
  ⟨updates.foldl (fun d kv => alistInsert kv.1 kv.2 d) r.data⟩

/-- The primary-key pre-check of `update_rows`: a row that the predicate does
not select and that already holds the new key value is a violation. -/
def updatePkCheck (table_name : String) (table : Table)
    (updates : List (String × String)) (condition : Row → Bool) : Option StorageError :=
  match table.primary_key with
  | none => none
  | some pk =>
    match alistGet pk updates with
    | none => none
    | some new_pk_value =>
      match table.rows.find?
          (fun r => !condition r.2 && alistGet pk r.2.data == some new_pk_value) with
      | some _ => some (.PrimaryKeyViolation table_name pk new_pk_value)
      | none => none

/-- `StorageEngine::update_rows`; returns the modified-row count. -/
def StorageEngine.update_rows (e : StorageEngine) (now : Nat) (table_name : String)
    (updates : List (String × String)) (condition : Row → Bool) :
    Except StorageError (Nat × StorageEngine) :=
  match alistGet table_name e.tables with
  | none => .error (.TableNotFound table_name)
  | some table =>
    match updates.find? (fun kv => !table.columns.contains kv.1) with
    | some kv => .error (.ColumnNotFound table_name kv.1)
    | none =>
      match updatePkCheck table_name table updates condition with
      | some err => .error err
      | none =>
        let updated_count := table.rows.countP (fun r => condition r.2)
        let newRows := table.rows.map
          (fun r => if condition r.2 then (r.1, applyUpdates updates r.2) else r)
        .ok (updated_count,
          { tables := alistInsert table_name { table with rows := newRows } e.tables,
            metadata :=
              if 0 < updated_count then
                { e.metadata.update_timestamp now with
                  total_rows_updated := e.metadata.total_rows_updated + updated_count }
              else e.metadata })

/-- `StorageEngine::delete_rows`; returns the removed-row count. -/
def StorageEngine.delete_rows (e : StorageEngine) (now : Nat) (table_name : String)
    (condition : Row → Bool) : Except StorageError (Nat × StorageEngine) :=
  match alistGet table_name e.tables with
  | none => .error (.TableNotFound table_name)
  | some table =>
    let newRows := table.rows.filter (fun r => !condition r.2)
    let deleted_count := table.rows.length - newRows.length
    .ok (deleted_count,
      { tables := alistInsert table_name { table with rows := newRows } e.tables,
        metadata :=
          if 0 < deleted_count then
            { e.metadata.update_timestamp now with
              total_rows_deleted := e.metadata.total_rows_deleted + deleted_count }
          else e.metadata })

/-- `StorageEngine::drop_table`. -/
def StorageEngine.drop_table (e : StorageEngine) (now : Nat) (table_name : String) :
    Except StorageError StorageEngine :=
  if (alistGet table_name e.tables).isSome then
    .ok { tables := alistRemove table_name e.tables,
          metadata := e.metadata.update_timestamp now }
  else .error (.TableNotFound table_name)

/-! ### Operation sequences and the primary-key uniqueness invariant (C1) -/

/-- One storage-engine operation, with its clock reading. -/
inductive Op where
  | create_table (now : Nat) (name : String) (columns : List String)
      (primary_key : Option String)
  | insert_row (now : Nat) (table : String) (row : Row)
  | update_rows (now : Nat) (table : String) (updates : List (String × String))
      (condition : Row → Bool)
  | delete_rows (now : Nat) (table : String) (condition : Row → Bool)
  | drop_table (now : Nat) (name : String)

/-- Run one operation; a failed operation leaves the engine unchanged
(the source performs no mutation on any error path). -/
def applyOp (e : StorageEngine) : Op → StorageEngine
  | .create_table now name columns pk =>
    match e.create_table now name columns pk with
    | .ok e' => e'
    | .error _ => e
  | .insert_row now t row =>
    match e.insert_row now t row with
    | .ok e' => e'
    | .error _ => e
  | .update_rows now t updates cond =>
    match e.update_rows now t updates cond with
    | .ok (_, e') => e'
    | .error _ => e
  | .delete_rows now t cond =>
    match e.delete_rows now t cond with
    | .ok (_, e') => e'
    | .error _ => e
  | .drop_table now name =>
    match e.drop_table now name with
    | .ok e' => e'
    | .error _ => e

/-- States reachable from the empty engine by arbitrary operation sequences. -/
inductive Reachable : StorageEngine → Prop where
  | empty (now : Nat) : Reachable (StorageEngine.new now)
  | step (e : StorageEngine) (op : Op) : Reachable e → Reachable (applyOp e op)

/-- The multiset of primary-key values over the rows of a table. -/
def pkValuesL (rows : List (Nat × Row)) (pk : String) : List String :=
  rows.filterMap (fun r => alistGet pk r.2.data)

/-- No two rows of the table share a value at its declared primary key. -/
def pkUnique (t : Table) : Prop :=
  ∀ pk, t.primary_key = some pk → (pkValuesL t.rows pk).Nodup

/-- A well-formed operation: its `updates` argument denotes a real `HashMap`
(duplicate-free keys), and when it sets a declared primary key its predicate
selects at most one row of the current table. -/
def Op.safeFor (op : Op) (e : StorageEngine) : Prop :=
  match op with
  | .update_rows _ tname updates cond =>
      (updates.map Prod.fst).Nodup ∧
      ∀ t pk, alistGet tname e.tables = some t → t.primary_key = some pk →
        (alistGet pk updates = none ∨ t.rows.countP (fun r => cond r.2) ≤ 1)
  | _ => True

/-- States reachable by sequences whose primary-key-touching updates each
select at most one row. -/
inductive ReachableSafe : StorageEngine → Prop where
  | empty (now : Nat) : ReachableSafe (StorageEngine.new now)
  | step (e : StorageEngine) (op : Op) : ReachableSafe e → op.safeFor e →
      ReachableSafe (applyOp e op)

theorem mem_pkValuesL {rows : List (Nat × Row)} {pk x : String} :
    x ∈ pkValuesL rows pk ↔ ∃ r ∈ rows, alistGet pk r.2.data = some x := by
  simp [pkValuesL, List.mem_filterMap]

theorem pkValuesL_cons_none {k0 : Nat} {r0 : Row} {tl : List (Nat × Row)} {pk : String}
    (h : alistGet pk r0.data = none) :
    pkValuesL ((k0, r0) :: tl) pk = pkValuesL tl pk := by
  simp [pkValuesL, List.filterMap_cons, h]

theorem pkValuesL_cons_some {k0 : Nat} {r0 : Row} {tl : List (Nat × Row)} {pk v0 : String}
    (h : alistGet pk r0.data = some v0) :
    pkValuesL ((k0, r0) :: tl) pk = v0 :: pkValuesL tl pk := by
  simp [pkValuesL, List.filterMap_cons, h]

theorem pkValuesL_cons_nodup_tail (k0 : Nat) (r0 : Row) {tl : List (Nat × Row)} {pk : String}
    (h : (pkValuesL ((k0, r0) :: tl) pk).Nodup) : (pkValuesL tl pk).Nodup := by
  cases h0 : alistGet pk r0.data with
  | none => rwa [pkValuesL_cons_none h0] at h
  | some v0 => rw [pkValuesL_cons_some h0] at h; exact h.of_cons

/-- Inserting (or replacing) a row whose key value is fresh keeps the key
values duplicate free. -/
theorem pkValuesL_alistInsert_nodup {pk v : String} {row : Row} {id : Nat}
    (hv : alistGet pk row.data = some v) :
    ∀ {rows : List (Nat × Row)},
      (∀ r ∈ rows, alistGet pk r.2.data ≠ some v) →
      (pkValuesL rows pk).Nodup →
      (pkValuesL (alistInsert id row rows) pk).Nodup := by
  intro rows
  induction rows with
  | nil =>
    intro _ _
    simp [alistInsert, pkValuesL, List.filterMap_cons, hv]
  | cons hd tl ih =>
    obtain ⟨k0, r0⟩ := hd
    intro hall hnd
    by_cases hk : k0 = id
    · simp only [alistInsert, if_pos hk]
      rw [pkValuesL_cons_some hv, List.nodup_cons]
      refine ⟨fun hmem => ?_, pkValuesL_cons_nodup_tail _ _ hnd⟩
      obtain ⟨r, hr, hgr⟩ := mem_pkValuesL.1 hmem
      exact hall r (List.mem_cons_of_mem _ hr) hgr
    · simp only [alistInsert, if_neg hk]
      have hall_tl : ∀ r ∈ tl, alistGet pk r.2.data ≠ some v :=
        fun r hr => hall r (List.mem_cons_of_mem _ hr)
      cases h0 : alistGet pk r0.data with
      | none =>
        rw [pkValuesL_cons_none h0]
        exact ih hall_tl (by rwa [pkValuesL_cons_none h0] at hnd)
      | some v0 =>
        rw [pkValuesL_cons_some h0] at hnd ⊢
        rw [List.nodup_cons] at hnd ⊢
        refine ⟨fun hmem => ?_, ih hall_tl hnd.2⟩
        obtain ⟨r, hr, hgr⟩ := mem_pkValuesL.1 hmem
        rcases mem_alistInsert hr with rfl | hr'
        · have hveq : v = v0 := Option.some.inj (hv.symm.trans hgr)
          exact hall (k0, r0) (List.mem_cons_self _ _) (by rw [h0, ← hveq])
        · exact hnd.1 (mem_pkValuesL.2 ⟨r, hr', hgr⟩)

theorem pkValuesL_map_congr {pk : String} {f : Nat × Row → Nat × Row}
    {rows : List (Nat × Row)}
    (h : ∀ r ∈ rows, alistGet pk (f r).2.data = alistGet pk r.2.data) :
    pkValuesL (rows.map f) pk = pkValuesL rows pk := by
  induction rows with
  | nil => rfl
  | cons hd tl ih =>
    have hh := h hd (List.mem_cons_self _ _)
    have ht := ih (fun r hr => h r (List.mem_cons_of_mem _ hr))
    simp only [List.map_cons, pkValuesL, List.filterMap_cons] at *
    rw [hh, ht]

theorem alistGet_none_of_not_mem_keys {k : String} :
    ∀ {l : List (String × String)}, k ∉ l.map Prod.fst → alistGet k l = none
  | [], _ => rfl
  | (k0, v0) :: t, h => by
    simp only [List.map_cons, List.mem_cons] at h
    push_neg at h
    have : ¬ k0 = k := fun he => h.1 he.symm
    simp only [alistGet, if_neg this]
    exact alistGet_none_of_not_mem_keys h.2

theorem alistGet_foldl_insert_of_none {k : String} :
    ∀ (updates : List (String × String)) (d : List (String × String)),
      alistGet k updates = none →
      alistGet k (updates.foldl (fun d kv => alistInsert kv.1 kv.2 d) d) = alistGet k d
  | [], _, _ => rfl
  | (k0, v0) :: rest, d, h => by
    have hk : ¬ k0 = k := by
      intro he
      simp [alistGet, he] at h
    have hrest : alistGet k rest = none := by
      simpa [alistGet, if_neg hk] using h
    simp only [List.foldl_cons]
    rw [alistGet_foldl_insert_of_none rest _ hrest, alistGet_insert, if_neg hk]

theorem alistGet_foldl_insert_of_some {k v : String} :
    ∀ (updates : List (String × String)) (d : List (String × String)),
      (updates.map Prod.fst).Nodup →
      alistGet k updates = some v →
      alistGet k (updates.foldl (fun d kv => alistInsert kv.1 kv.2 d) d) = some v
  | [], _, _, h => by simp [alistGet] at h
  | (k0, v0) :: rest, d, hnd, h => by
    simp only [List.map_cons, List.nodup_cons] at hnd
    by_cases hk : k0 = k
    · subst hk
      have hv0 : v0 = v := by simpa [alistGet] using h
      subst hv0
      have hrest : alistGet k0 rest = none := alistGet_none_of_not_mem_keys hnd.1
      simp only [List.foldl_cons]
      rw [alistGet_foldl_insert_of_none rest _ hrest, alistGet_insert, if_pos rfl]
    · have hrest : alistGet k rest = some v := by
        simpa [alistGet, if_neg hk] using h
      simp only [List.foldl_cons]
      exact alistGet_foldl_insert_of_some rest _ hnd.2 hrest

theorem applyUpdates_get_of_none {pk : String} {updates : List (String × String)} {r : Row}
    (h : alistGet pk updates = none) :
    alistGet pk (applyUpdates updates r).data = alistGet pk r.data :=
  alistGet_foldl_insert_of_none updates r.data h

theorem applyUpdates_get_of_some {pk v : String} {updates : List (String × String)} {r : Row}
    (hnd : (updates.map Prod.fst).Nodup) (h : alistGet pk updates = some v) :
    alistGet pk (applyUpdates updates r).data = some v :=
  alistGet_foldl_insert_of_some updates r.data hnd h

/-- A key value found after an update either is the new value or was already
present before the update. -/
theorem mem_pkValuesL_map_update {pk v x : String} {updates : List (String × String)}
    {cond : Row → Bool}
    (hnd : (updates.map Prod.fst).Nodup) (hget : alistGet pk updates = some v)
    {rows : List (Nat × Row)}
    (hx : x ∈ pkValuesL
      (rows.map (fun r => if cond r.2 then (r.1, applyUpdates updates r.2) else r)) pk) :
    x = v ∨ x ∈ pkValuesL rows pk := by
  obtain ⟨r', hr', hgr⟩ := mem_pkValuesL.1 hx
  obtain ⟨r, hr, hfr⟩ := List.mem_map.1 hr'
  by_cases hc : cond r.2
  · rw [if_pos hc] at hfr
    subst hfr
    left
    have := applyUpdates_get_of_some (r := r.2) hnd hget
    exact Option.some.inj ((this.symm.trans hgr)).symm
  · rw [if_neg hc] at hfr
    subst hfr
    exact Or.inr (mem_pkValuesL.2 ⟨r, hr, hgr⟩)

/-- Updating the primary-key column on at most one selected row, after the
pre-check that no unselected row holds the new value, keeps key values
duplicate free. -/
theorem pkValuesL_update_nodup {pk v : String} {updates : List (String × String)}
    {cond : Row → Bool}
    (hnd : (updates.map Prod.fst).Nodup) (hget : alistGet pk updates = some v) :
    ∀ {rows : List (Nat × Row)},
      (∀ r ∈ rows, cond r.2 = false → alistGet pk r.2.data ≠ some v) →
      rows.countP (fun r => cond r.2) ≤ 1 →
      (pkValuesL rows pk).Nodup →
      (pkValuesL (rows.map
        (fun r => if cond r.2 then (r.1, applyUpdates updates r.2) else r)) pk).Nodup := by
  intro rows
  induction rows with
  | nil => intro _ _ _; simp [pkValuesL]
  | cons hd tl ih =>
    intro hall hcount hndv
    by_cases hc : cond hd.2
    · have hc1 : tl.countP (fun r => cond r.2) = 0 := by
        rw [List.countP_cons, if_pos hc] at hcount
        omega
      have htl_false : ∀ r ∈ tl, cond r.2 = false := by
        intro r hr
        have := (List.countP_eq_zero).1 hc1 r hr
        simpa using this
      have htl_id : pkValuesL (tl.map
          (fun r => if cond r.2 then (r.1, applyUpdates updates r.2) else r)) pk
          = pkValuesL tl pk := by
        apply pkValuesL_map_congr
        intro r hr
        rw [if_neg (by simp [htl_false r hr])]
      simp only [List.map_cons, if_pos hc]
      rw [pkValuesL_cons_some (applyUpdates_get_of_some hnd hget), htl_id, List.nodup_cons]
      refine ⟨fun hmem => ?_, pkValuesL_cons_nodup_tail hd.1 hd.2 ?_⟩
      · obtain ⟨r, hr, hgr⟩ := mem_pkValuesL.1 hmem
        exact hall r (List.mem_cons_of_mem _ hr) (htl_false r hr) hgr
      · cases hd
        exact hndv
    · have hcount' : tl.countP (fun r => cond r.2) ≤ 1 := by
        rw [List.countP_cons] at hcount
        omega
      have hall_tl : ∀ r ∈ tl, cond r.2 = false → alistGet pk r.2.data ≠ some v :=
        fun r hr => hall r (List.mem_cons_of_mem _ hr)
      have ihr := ih hall_tl hcount' (pkValuesL_cons_nodup_tail hd.1 hd.2
        (by cases hd; exact hndv))
      simp only [List.map_cons, if_neg hc]
      cases h0 : alistGet pk hd.2.data with
      | none =>
        obtain ⟨k0, r0⟩ := hd
        rw [pkValuesL_cons_none h0]
        exact ihr
      | some v0 =>
        obtain ⟨k0, r0⟩ := hd
        rw [pkValuesL_cons_some h0] at hndv ⊢
        rw [List.nodup_cons] at hndv ⊢
        refine ⟨fun hmem => ?_, ihr⟩
        rcases mem_pkValuesL_map_update hnd hget hmem with rfl | hmem'
        · exact hall (k0, r0) (List.mem_cons_self _ _) (by simpa using hc) h0
        · exact hndv.1 hmem'

/-- Every table of the catalog satisfies primary-key uniqueness. -/
def engineTablesOk (e : StorageEngine) : Prop := ∀ p ∈ e.tables, pkUnique p.2

theorem pkUnique_empty_rows (cols : List String) (pk : Option String) :
    pkUnique ⟨cols, [], pk⟩ := fun _ _ => by simp [pkValuesL]

theorem create_table_ok_inv {e : StorageEngine} {now : Nat} {name : String}
    {columns : List String} {pk : Option String} {e' : StorageEngine}
    (h : e.create_table now name columns pk = .ok e')
    (hin : engineTablesOk e) : engineTablesOk e' := by
  have main : ∀ (md : StorageMetadata),
      e' = ({ tables := alistInsert name ⟨columns, [], pk⟩ e.tables,
              metadata := md } : StorageEngine) → engineTablesOk e' := by
    intro md he'
    subst he'
    intro p hp
    rcases mem_alistInsert hp with rfl | hp'
    · exact pkUnique_empty_rows _ _
    · exact hin p hp'
  unfold StorageEngine.create_table at h
  split at h
  · cases h
  split at h
  · cases h
  split at h
  · cases h
  split at h
  · cases h
  split at h
  · split at h
    · exact main _ (by cases h; rfl)
    · cases h
  · exact main _ (by cases h; rfl)

theorem insert_row_ok_inv {e : StorageEngine} {now : Nat} {table_name : String}
    {row : Row} {e' : StorageEngine}
    (h : e.insert_row now table_name row = .ok e')
    (hin : engineTablesOk e) : engineTablesOk e' := by
  unfold StorageEngine.insert_row at h
  split at h
  · cases h
  case _ table hget =>
    split at h
    · cases h
    split at h
    case _ pk hpk =>
      split at h
      case _ pk_value hpkv =>
        split at h
        · cases h
        case _ hany =>
          cases h
          intro p hp
          rcases mem_alistInsert hp with rfl | hp'
          · intro pk' hpk'
            simp only at hpk'
            rw [hpk] at hpk'
            injection hpk' with hpkeq
            subst hpkeq
            have hanyf : table.rows.any
                (fun r => alistGet pk r.2.data == some pk_value) = false := by
              simpa using hany
            have hfresh : ∀ r ∈ table.rows, alistGet pk r.2.data ≠ some pk_value := by
              intro r hr hcontra
              have h2 := List.any_eq_false.mp hanyf r hr
              simp [hcontra] at h2
            exact pkValuesL_alistInsert_nodup hpkv hfresh
              (hin (table_name, table) (alistGet_mem hget) pk hpk)
          · exact hin p hp'
      · cases h
    case _ hpknone =>
      cases h
      intro p hp
      rcases mem_alistInsert hp with rfl | hp'
      · intro pk' hpk'
        simp only at hpk'
        rw [hpknone] at hpk'
        cases hpk'
      · exact hin p hp'

theorem update_rows_ok_inv {e : StorageEngine} {now : Nat} {table_name : String}
    {updates : List (String × String)} {cond : Row → Bool} {cnt : Nat} {e' : StorageEngine}
    (h : e.update_rows now table_name updates cond = .ok (cnt, e'))
    (hnd : (updates.map Prod.fst).Nodup)
    (hsafe : ∀ t pk, alistGet table_name e.tables = some t → t.primary_key = some pk →
      (alistGet pk updates = none ∨ t.rows.countP (fun r => cond r.2) ≤ 1))
    (hin : engineTablesOk e) : engineTablesOk e' := by
  unfold StorageEngine.update_rows at h
  split at h
  · cases h
  case _ table hget =>
    split at h
    · cases h
    split at h
    · cases h
    case _ hchk =>
      cases h
      intro p hp
      rcases mem_alistInsert hp with rfl | hp'
      · intro pk' hpk'
        simp only at hpk'
        have hund := hin (table_name, table) (alistGet_mem hget) pk' hpk'
        cases hgetu : alistGet pk' updates with
        | none =>
          rw [pkValuesL_map_congr (fun r _ => by
            by_cases hc : cond r.2
            · rw [if_pos hc]
              exact applyUpdates_get_of_none hgetu
            · rw [if_neg hc])]
          exact hund
        | some v =>
          have hcnt : table.rows.countP (fun r => cond r.2) ≤ 1 := by
            rcases hsafe table pk' hget hpk' with hnone | hle
            · rw [hgetu] at hnone; cases hnone
            · exact hle
          have hpre : ∀ r ∈ table.rows, cond r.2 = false →
              alistGet pk' r.2.data ≠ some v := by
            intro r hr hc hcontra
            unfold updatePkCheck at hchk
            rw [hpk'] at hchk
            simp only [hgetu] at hchk
            split at hchk
            · cases hchk
            case _ hfind =>
              have := List.find?_eq_none.1 hfind r hr
              simp [hc, hcontra] at this
          exact pkValuesL_update_nodup hnd hgetu hpre hcnt hund
      · exact hin p hp'

theorem delete_rows_ok_inv {e : StorageEngine} {now : Nat} {table_name : String}
    {cond : Row → Bool} {cnt : Nat} {e' : StorageEngine}
    (h : e.delete_rows now table_name cond = .ok (cnt, e'))
    (hin : engineTablesOk e) : engineTablesOk e' := by
  unfold StorageEngine.delete_rows at h
  split at h
  · cases h
  case _ table hget =>
    cases h
    intro p hp
    rcases mem_alistInsert hp with rfl | hp'
    · intro pk' hpk'
      simp only at hpk'
      have hund := hin (table_name, table) (alistGet_mem hget) pk' hpk'
      exact hund.sublist ((List.filter_sublist _).filterMap _)
    · exact hin p hp'

theorem drop_table_ok_inv {e : StorageEngine} {now : Nat} {table_name : String}
    {e' : StorageEngine}
    (h : e.drop_table now table_name = .ok e')
    (hin : engineTablesOk e) : engineTablesOk e' := by
  unfold StorageEngine.drop_table at h
  split at h
  · cases h
    exact fun p hp => hin p (mem_alistRemove hp)
  · cases h

/-- Safe operation sequences preserve primary-key uniqueness of every table. -/
theorem reachableSafe_tablesOk {e : StorageEngine} (h : ReachableSafe e) :
    engineTablesOk e := by
  induction h with
  | empty now => intro p hp; cases hp
  | step e op _ hsafe ih =>
    cases op with
    | create_table now name columns pk =>
      simp only [applyOp]
      split
      case _ e' heq => exact create_table_ok_inv heq ih
      case _ => exact ih
    | insert_row now t row =>
      simp only [applyOp]
      split
      case _ e' heq => exact insert_row_ok_inv heq ih
      case _ => exact ih
    | update_rows now t updates cond =>
      simp only [applyOp]
      split
      case _ cnt e' heq =>
        exact update_rows_ok_inv heq hsafe.1 (fun tb pk hg hpk => hsafe.2 tb pk hg hpk) ih
      case _ => exact ih
    | delete_rows now t cond =>
      simp only [applyOp]
      split
      case _ cnt e' heq => exact delete_rows_ok_inv heq ih
      case _ => exact ih
    | drop_table now name =>
      simp only [applyOp]
      split
      case _ e' heq => exact drop_table_ok_inv heq ih
      case _ => exact ih

/-- C1: after any sequence of storage-engine operations from the empty engine
in which every `update_rows` that sets a declared primary key selects at most
one row (and whose updates map is a genuine `HashMap`, i.e. duplicate-free
keys), no two rows of a table with primary key K share a value at K.
(The unrestricted claim is refuted by `pkUnique_reachable_counterexample`:
an update that sets the PK on two selected rows creates a duplicate, because
the pre-check only inspects rows the predicate does not select.) -/
theorem pkUnique_reachableSafe (e : StorageEngine) (h : ReachableSafe e)
    (name : String) (t : Table) (ht : alistGet name e.tables = some t) :
    pkUnique t :=
  reachableSafe_tablesOk h (name, t) (alistGet_mem ht)

/-- A three-operation safe trace: create a PK table and insert two rows. -/
def C1witE : StorageEngine :=
  applyOp (applyOp (applyOp (StorageEngine.new 0)
    (.create_table 0 "t" ["k"] (some "k")))
    (.insert_row 0 "t" ⟨[("k", "1")]⟩))
    (.insert_row 0 "t" ⟨[("k", "2")]⟩)

/-- The table reached by the trace `C1witE`. -/
def C1witTable : Table :=
  ⟨["k"], [(0, ⟨[("k", "1")]⟩), (1, ⟨[("k", "2")]⟩)], some "k"⟩

theorem pkUnique_reachableSafe_witness :
    alistGet "t" C1witE.tables = some C1witTable ∧
    (pkValuesL C1witTable.rows "k").Nodup :=
  ⟨by decide,
    pkUnique_reachableSafe C1witE
      (.step _ _ (.step _ _ (.step _ _ (.empty 0) trivial) trivial) trivial)
      "t" C1witTable (by decide) "k" rfl⟩

/-- The four-operation trace refuting the unrestricted claim: an update that
sets the primary key while its predicate matches both rows. -/
def C1cex : StorageEngine :=
  applyOp (applyOp (applyOp (applyOp (StorageEngine.new 0)
    (.create_table 0 "t" ["k"] (some "k")))
    (.insert_row 0 "t" ⟨[("k", "1")]⟩))
    (.insert_row 0 "t" ⟨[("k", "2")]⟩))
    (.update_rows 0 "t" [("k", "3")] (fun _ => true))

/-- The duplicated table reached by `C1cex`. -/
def C1cexTable : Table :=
  ⟨["k"], [(0, ⟨[("k", "3")]⟩), (1, ⟨[("k", "3")]⟩)], some "k"⟩

/-- C1 as stated is false: the state `C1cex` is reachable from the empty
engine by storage-engine operations, yet its table "t" holds two rows with
the same value "3" at the declared primary key "k". -/
theorem pkUnique_reachable_counterexample :
    Reachable C1cex ∧
    ¬ (∀ name t, alistGet name C1cex.tables = some t → pkUnique t) := by
  constructor
  · exact .step _ _ (.step _ _ (.step _ _ (.step _ _ (.empty 0))))
  · intro hall
    exact absurd (hall "t" C1cexTable (by decide) "k" rfl) (by decide)

/-! ### C2: row-id assignment at insert time -/

/-- Whether an `Except` result is a success. -/
def isOkE {ε α : Type} : Except ε α → Bool
  | .ok _ => true
  | .error _ => false

/-- Create table "t"(c), insert rows "a" and "b" (ids 0 and 1), then delete
the row with id 0; one row with id 1 survives and `rows.len()` is 1. -/
def C2engine : StorageEngine :=
  applyOp (applyOp (applyOp (applyOp (StorageEngine.new 0)
    (.create_table 0 "t" ["c"] none))
    (.insert_row 0 "t" ⟨[("c", "a")]⟩))
    (.insert_row 0 "t" ⟨[("c", "b")]⟩))
    (.delete_rows 0 "t" (fun r => alistGet "c" r.data == some "a"))

/-- C2 evaluated at the failing input: in state `C2engine` (one surviving row
with id 1), a further insert succeeds, is assigned `row_id = rows.len() = 1`,
which is an id already in use; the `HashMap` insert overwrites the surviving
row, so the row count stays 1 instead of increasing to 2, contradicting the
claim that row ids are never reused within a snapshot and that a successful
insert always increases the row count by one. -/
theorem insert_row_id_reuse_bug :
    C2engine.tables = [("t", ⟨["c"], [(1, ⟨[("c", "b")]⟩)], none⟩)] ∧
    isOkE (C2engine.insert_row 0 "t" ⟨[("c", "z")]⟩) = true ∧
    (applyOp C2engine (.insert_row 0 "t" ⟨[("c", "z")]⟩)).tables =
      [("t", ⟨["c"], [(1, ⟨[("c", "z")]⟩)], none⟩)] := by
  decide

/-! ### C3: the update_rows contract -/

/-- Closed form of a successful `update_rows` once all checks pass. -/
theorem update_rows_ok_eq (e : StorageEngine) (now : Nat) (table_name : String)
    (updates : List (String × String)) (cond : Row → Bool) (t : Table)
    (ht : alistGet table_name e.tables = some t)
    (hfind : updates.find? (fun kv => !t.columns.contains kv.1) = none)
    (hchk : updatePkCheck table_name t updates cond = none) :
    e.update_rows now table_name updates cond =
      .ok (t.rows.countP (fun r => cond r.2),
        { tables := alistInsert table_name
            { t with rows := (t.rows.map (fun r =>
                if cond r.2 then (r.1, applyUpdates updates r.2) else r)) }
            e.tables,
          metadata :=
            if 0 < t.rows.countP (fun r => cond r.2) then
              { e.metadata.update_timestamp now with
                total_rows_updated :=
                  e.metadata.total_rows_updated + t.rows.countP (fun r => cond r.2) }
            else e.metadata }) := by
  simp only [StorageEngine.update_rows, ht, hfind, hchk]

/-- C3: given the table exists and every update column is in its schema:
if the primary key is among the updates and some row not selected by the
predicate already holds the new key value, `update_rows` fails with
`PrimaryKeyViolation` (and, the embedding being functional, no state is
produced: the source mutates nothing before this check); otherwise it applies
all updates to exactly the rows the predicate selects and returns their
count. -/
theorem update_rows_spec (e : StorageEngine) (now : Nat) (table_name : String)
    (updates : List (String × String)) (cond : Row → Bool) (t : Table)
    (ht : alistGet table_name e.tables = some t)
    (hcols : ∀ kv ∈ updates, t.columns.contains kv.1) :
    (∀ pk v, t.primary_key = some pk → alistGet pk updates = some v →
      (∃ r ∈ t.rows, cond r.2 = false ∧ alistGet pk r.2.data = some v) →
      e.update_rows now table_name updates cond =
        .error (.PrimaryKeyViolation table_name pk v)) ∧
    ((∀ pk v, t.primary_key = some pk → alistGet pk updates = some v →
        ∀ r ∈ t.rows, cond r.2 = false → alistGet pk r.2.data ≠ some v) →
      e.update_rows now table_name updates cond =
        .ok (t.rows.countP (fun r => cond r.2),
          { tables := alistInsert table_name
              { t with rows := (t.rows.map (fun r =>
                  if cond r.2 then (r.1, applyUpdates updates r.2) else r)) }
              e.tables,
            metadata :=
              if 0 < t.rows.countP (fun r => cond r.2) then
                { e.metadata.update_timestamp now with
                  total_rows_updated :=
                    e.metadata.total_rows_updated + t.rows.countP (fun r => cond r.2) }
              else e.metadata })) := by
  have hfind : updates.find? (fun kv => !t.columns.contains kv.1) = none :=
    List.find?_eq_none.2 (fun kv hkv h => by rw [hcols kv hkv] at h; simp at h)
  constructor
  · rintro pk v hpk hgetu ⟨r, hr, hc, hcv⟩
    have hchk : updatePkCheck table_name t updates cond =
        some (.PrimaryKeyViolation table_name pk v) := by
      unfold updatePkCheck
      rw [hpk]
      simp only [hgetu]
      cases hf : t.rows.find? (fun r => !cond r.2 && alistGet pk r.2.data == some v) with
      | none =>
        have := List.find?_eq_none.1 hf r hr
        simp [hc, hcv] at this
      | some x => rfl
    simp only [StorageEngine.update_rows, ht, hfind, hchk]
  · intro hnone
    have hchk : updatePkCheck table_name t updates cond = none := by
      unfold updatePkCheck
      cases hpk : t.primary_key with
      | none => rfl
      | some pk =>
        cases hgetu : alistGet pk updates with
        | none => simp only [hgetu]
        | some v =>
          have hf : t.rows.find?
              (fun r => !cond r.2 && alistGet pk r.2.data == some v) = none :=
            List.find?_eq_none.2 (fun r hr => by
              by_cases hc : cond r.2
              · simp [hc]
              · have := hnone pk v hpk hgetu r hr (by simpa using hc)
                simp [hc, this])
          simp only [hgetu, hf]
    exact update_rows_ok_eq e now table_name updates cond t ht hfind hchk

/-- A concrete engine for witnessing the update contract: table "t" with
primary key "k" and two rows. -/
def C3e : StorageEngine :=
  ⟨[("t", ⟨["k"], [(0, ⟨[("k", "1")]⟩), (1, ⟨[("k", "2")]⟩)], some "k"⟩)],
    ⟨"1.0.0", 0, 0, 0, 0, 0, 0, 0⟩⟩

theorem update_rows_spec_witness :
    C3e.update_rows 0 "t" [("k", "2")] (fun r => alistGet "k" r.data == some "1") =
      .error (.PrimaryKeyViolation "t" "k" "2") :=
  (update_rows_spec C3e 0 "t" [("k", "2")] (fun r => alistGet "k" r.data == some "1")
      ⟨["k"], [(0, ⟨[("k", "1")]⟩), (1, ⟨[("k", "2")]⟩)], some "k"⟩
      (by decide) (by decide)).1
    "k" "2" rfl rfl ⟨(1, ⟨[("k", "2")]⟩), by decide, by decide, by decide⟩

/-! ### C6: WHERE-condition evaluation (src/db/parser.rs, WhereCondition::evaluate) -/

/-- Accumulate a decimal value; `none` as soon as a non-digit appears. -/
def digitsValAux (acc : Nat) : List Char → Option Nat
  | [] => some acc
  | c :: rest =>
    if c.isDigit then digitsValAux (acc * 10 + (c.toNat - '0'.toNat)) rest else none

/-- Rust `str::parse::<i32>`: an optional sign, one or more ASCII digits,
and a range check against the signed 32-bit bounds. -/
def rustParseI32 (s : String) : Option Int :=
  match s.data with
  | [] => none
  | '+' :: ds => rustParseI32Digits 1 ds
  | '-' :: ds => rustParseI32Digits (-1) ds
  | ds => rustParseI32Digits 1 ds
where
  rustParseI32Digits (sign : Int) (ds : List Char) : Option Int :=
    match ds with
    | [] => none
    | _ =>
      match digitsValAux 0 ds with
      | none => none
      | some n =>
        let v : Int := sign * n
        if -(2 : Int)^31 ≤ v ∧ v ≤ 2^31 - 1 then some v else none

/-- A parsed WHERE condition. -/
structure WhereCondition where
  column : String
  operator : String
  value : String
deriving DecidableEq, Repr

/-- `WhereCondition::evaluate`, translated branch for branch. -/
def WhereCondition.evaluate (c : WhereCondition) (row : Row) : Bool :=
  match alistGet c.column row.data with
  | some row_value =>
    if c.operator = "=" then row_value == c.value
    else if c.operator = ">" then
      decide ((rustParseI32 row_value).getD 0 > (rustParseI32 c.value).getD 0)
    else if c.operator = "<" then
      decide ((rustParseI32 row_value).getD 0 < (rustParseI32 c.value).getD 0)
    else if c.operator = ">=" then
      decide ((rustParseI32 row_value).getD 0 ≥ (rustParseI32 c.value).getD 0)
    else if c.operator = "<=" then
      decide ((rustParseI32 row_value).getD 0 ≤ (rustParseI32 c.value).getD 0)
    else if c.operator = "!=" ∨ c.operator = "<>" then row_value != c.value
    else false
  | none => false

/-- The comparison step of the claim: both sides parsed as signed 32-bit
integers, 0 substituted on parse failure, then compared by the operator. -/
def intCompare (op : String) (a b : Int) : Bool :=
  if op = ">" then decide (a > b)
  else if op = "<" then decide (a < b)
  else if op = ">=" then decide (a ≥ b)
  else decide (a ≤ b)

/-- The claim's description of predicate evaluation, written in its order:
missing column is false; `=` is string equality; `!=`/`<>` string inequality;
the four comparison operators compare parsed integers; anything else false. -/
def evalSpecC6 (c : WhereCondition) (row : Row) : Bool :=
  match alistGet c.column row.data with
  | none => false
  | some row_value =>
    if c.operator = "=" then row_value == c.value
    else if c.operator = "!=" ∨ c.operator = "<>" then row_value != c.value
    else if c.operator = ">" ∨ c.operator = "<" ∨ c.operator = ">=" ∨ c.operator = "<=" then
      intCompare c.operator ((rustParseI32 row_value).getD 0) ((rustParseI32 c.value).getD 0)
    else false

/-- C6: the source evaluation agrees with the claim's case analysis for every
row and condition. -/
theorem evaluate_eq_evalSpecC6 (c : WhereCondition) (row : Row) :
    c.evaluate row = evalSpecC6 c row := by
  unfold WhereCondition.evaluate evalSpecC6 intCompare
  cases alistGet c.column row.data with
  | none => rfl
  | some rv =>
    by_cases h1 : c.operator = "="
    · simp [h1]
    · by_cases h2 : c.operator = ">"
      · simp [h1, h2]
      · by_cases h3 : c.operator = "<"
        · simp [h1, h2, h3]
        · by_cases h4 : c.operator = ">="
          · simp [h1, h2, h3, h4]
          · by_cases h5 : c.operator = "<="
            · simp [h1, h2, h3, h4, h5]
            · by_cases h6 : c.operator = "!=" ∨ c.operator = "<>"
              · simp [h1, h2, h3, h4, h5, h6]
              · simp [h1, h2, h3, h4, h5, h6]

/-! ### AST (src/db/parser.rs) and executor (src/db/executor.rs) -/

/-- `Identifier(pub String)` from src/db/query.rs. -/
structure Identifier where
  str : String
deriving DecidableEq, Repr

/-- The AST of one SQL statement (`ASTNode`). -/
inductive ASTNode where
  | SelectStatement (projection : List Identifier) (table : Identifier)
      (condition : Option WhereCondition)
  | DeleteStatement (table : Identifier) (condition : Option WhereCondition)
  | UpdateStatement (table : Identifier) (assignments : List (Identifier × String))
      (condition : Option WhereCondition)
  | InsertStatement (table : Identifier) (columns : List Identifier)
      (values : List String)
  | Identifier (name : String)
deriving DecidableEq, Repr

/-- Executor-level error taxonomy (`ExecutionError`). -/
inductive ExecutionError where
  | TableNotFound
  | InsertFailed
  | UpdateFailed
  | InvalidQuery
deriving DecidableEq, Repr

/-- `FileSystem::insert_row`: delegate, then persist (the file write is
abstracted as always succeeding; its failure mode is an `io::Error`). -/
def FileSystem.insert_row (e : StorageEngine) (now : Nat) (table_name : String)
    (row : Row) : Except String StorageEngine :=
  match e.insert_row now table_name row with
  | .ok e' => .ok e'
  | .error err => .error err.toMessage

/-- `FileSystem::update_rows`: on storage success, persist and return a
single synthetic row rebuilt from the updates map; the storage count is
dropped. -/
def FileSystem.update_rows (e : StorageEngine) (now : Nat) (table_name : String)
    (updates : List (String × String)) (condition : Row → Bool) :
    (Except String (List Row)) × StorageEngine :=
  match e.update_rows now table_name updates condition with
  | .ok (_, e') =>
    (.ok [⟨updates.foldl (fun d kv => alistInsert kv.1 kv.2 d) []⟩], e')
  | .error err => (.error err.toMessage, e)

/-- `FileSystem::delete_rows`: a storage error is only logged to standard
error; the engine is returned unchanged in that case. -/
def FileSystem.delete_rows (e : StorageEngine) (now : Nat) (table_name : String)
    (condition : Row → Bool) : StorageEngine :=
  match e.delete_rows now table_name condition with
  | .ok (_, e') => e'
  | .error _ => e

/-- Projection step of `execute_select`: `*` copies the row verbatim,
otherwise each named column defaults to the empty string. -/
def projectRow (projection : List Identifier) (row : Row) : Row :=
  if projection.length = 1 ∧ (projection.headD ⟨""⟩).str = "*" then
    ⟨row.data.foldl (fun d kv => alistInsert kv.1 kv.2 d) []⟩
  else
    ⟨projection.foldl
      (fun d col => alistInsert col.str ((alistGet col.str row.data).getD "") d) []⟩

/-- `QueryExecutor::execute_select`. -/
def execute_select (e : StorageEngine) (projection : List Identifier)
    (table : Identifier) (condition : Option WhereCondition) :
    Except ExecutionError (List Row) :=
  match alistGet table.str e.tables with
  | none => .error .TableNotFound
  | some t =>
    .ok ((t.rows.filter (fun r =>
        match condition with
        | some c => c.evaluate r.2
        | none => true)).map (fun r => projectRow projection r.2))

/-- `QueryExecutor::execute_insert`: positional zip when no column list,
explicit zip otherwise, silently truncating at the shorter length. -/
def execute_insert (e : StorageEngine) (now : Nat) (table : Identifier)
    (columns : List Identifier) (values : List String) :
    (Except ExecutionError Unit) × StorageEngine :=
  let pairs :=
    if columns.isEmpty then
      match alistGet table.str e.tables with
      | some t => t.columns.zip values
      | none => []
    else (columns.map Identifier.str).zip values
  let row : Row := ⟨pairs.foldl (fun d kv => alistInsert kv.1 kv.2 d) []⟩
  match FileSystem.insert_row e now table.str row with
  | .ok e' => (.ok (), e')
  | .error _ => (.error .InsertFailed, e)

/-- `QueryExecutor::execute_update`: without a WHERE clause the predicate is
true for every row. -/
def execute_update (e : StorageEngine) (now : Nat) (table : Identifier)
    (assignments : List (Identifier × String)) (condition : Option WhereCondition) :
    (Except ExecutionError Unit) × StorageEngine :=
  let updates := assignments.foldl (fun m a => alistInsert a.1.str a.2 m) []
  let condition_fn := fun row =>
    match condition with
    | some c => c.evaluate row
    | none => true
  match FileSystem.update_rows e now table.str updates condition_fn with
  | (.ok _, e') => (.ok (), e')
  | (.error _, e') => (.error .UpdateFailed, e')

/-- `QueryExecutor::execute_delete`: without a WHERE clause the predicate is
false for every row, as a guardrail; never fails. -/
def execute_delete (e : StorageEngine) (now : Nat) (table : Identifier)
    (condition : Option WhereCondition) :
    (Except ExecutionError Unit) × StorageEngine :=
  let condition_fn := fun row =>
    match condition with
    | some c => c.evaluate row
    | none => false
  (.ok (), FileSystem.delete_rows e now table.str condition_fn)

/-- `QueryExecutor::execute`. -/
def QueryExecutor.execute (e : StorageEngine) (now : Nat) (q : ASTNode) :
    (Except ExecutionError (List Row)) × StorageEngine :=
  match q with
  | .SelectStatement projection table condition =>
    (execute_select e projection table condition, e)
  | .DeleteStatement table condition =>
    match execute_delete e now table condition with
    | (.ok _, e') => (.ok [], e')
    | (.error err, e') => (.error err, e')
  | .InsertStatement table columns values =>
    match execute_insert e now table columns values with
    | (.ok _, e') => (.ok [], e')
    | (.error err, e') => (.error err, e')
  | .UpdateStatement table assignments condition =>
    match execute_update e now table assignments condition with
    | (.ok _, e') => (.ok [], e')
    | (.error err, e') => (.error err, e')
  | .Identifier _ => (.error .InvalidQuery, e)

/-! ### C9: DELETE execution never fails -/

/-- C9: executing a DELETE statement through the executor always returns
`Ok` with an empty row vector, for every engine state, table name and
condition; when the table does not exist, the storage error is swallowed by
the persistence façade (only logged) and the engine is left unchanged. -/
theorem execute_delete_never_errors (e : StorageEngine) (now : Nat)
    (table : Identifier) (condition : Option WhereCondition) :
    (QueryExecutor.execute e now (.DeleteStatement table condition)).1 = .ok [] ∧
    (alistGet table.str e.tables = none →
      QueryExecutor.execute e now (.DeleteStatement table condition) = (.ok [], e)) := by
  constructor
  · rfl
  · intro h
    simp only [QueryExecutor.execute, execute_delete, FileSystem.delete_rows,
      StorageEngine.delete_rows, h]

theorem execute_delete_never_errors_witness :
    alistGet "nosuch" (StorageEngine.new 0).tables = none ∧
    QueryExecutor.execute (StorageEngine.new 0) 0
      (.DeleteStatement ⟨"nosuch"⟩ none) = (.ok [], StorageEngine.new 0) :=
  ⟨rfl, (execute_delete_never_errors (StorageEngine.new 0) 0 ⟨"nosuch"⟩ none).2 rfl⟩

/-! ### C5: unconditional DELETE is a no-op, unconditional UPDATE hits all rows -/

theorem alistInsert_eq_append {k v : String} :
    ∀ {acc : List (String × String)}, k ∉ acc.map Prod.fst →
      alistInsert k v acc = acc ++ [(k, v)]
  | [], _ => rfl
  | (k0, v0) :: t, h => by
    simp only [List.map_cons, List.mem_cons] at h
    push_neg at h
    have hk : ¬ k0 = k := fun he => h.1 he.symm
    simp only [alistInsert, if_neg hk, List.cons_append, List.cons.injEq, true_and]
    exact alistInsert_eq_append h.2

theorem mem_foldl_alistInsert {α : Type} {f : α → String} {g : α → String} :
    ∀ {l : List α} {acc : List (String × String)} {kv : String × String},
      kv ∈ l.foldl (fun m a => alistInsert (f a) (g a) m) acc →
      kv ∈ acc ∨ ∃ a ∈ l, kv.1 = f a
  | [], _, _, h => Or.inl h
  | a :: tl, acc, kv, h => by
    simp only [List.foldl_cons] at h
    rcases mem_foldl_alistInsert h with h' | ⟨a', ha', hk⟩
    · rcases mem_alistInsert h' with rfl | h''
      · exact Or.inr ⟨a, List.mem_cons_self _ _, rfl⟩
      · exact Or.inl h''
    · exact Or.inr ⟨a', List.mem_cons_of_mem _ ha', hk⟩

/-- An always-true predicate makes the primary-key pre-check vacuous: there
is no unselected row to conflict with. -/
theorem updatePkCheck_always_true (tn : String) (t : Table)
    (updates : List (String × String)) (cond : Row → Bool)
    (hc : ∀ r, cond r = true) :
    updatePkCheck tn t updates cond = none := by
  unfold updatePkCheck
  cases t.primary_key with
  | none => rfl
  | some pk =>
    cases hgetu : alistGet pk updates with
    | none => simp only [hgetu]
    | some v =>
      have hf : t.rows.find?
          (fun r => !cond r.2 && alistGet pk r.2.data == some v) = none :=
        List.find?_eq_none.2 (fun r _ => by simp [hc r.2])
      simp only [hgetu, hf]

/-- C5: executing `DELETE` with no WHERE clause returns `Ok []` and leaves
the engine (hence every table's rows) unchanged, while executing `UPDATE`
with no WHERE clause applies the assignments to every row of the table. -/
theorem unconditional_delete_noop_update_all (e : StorageEngine) (now : Nat)
    (tname : Identifier) (t : Table) (assignments : List (Identifier × String))
    (ht : alistGet tname.str e.tables = some t)
    (hcols : ∀ a ∈ assignments, t.columns.contains a.1.str) :
    (∀ (e0 : StorageEngine) (now0 : Nat) (t0 : Identifier),
      QueryExecutor.execute e0 now0 (.DeleteStatement t0 none) = (.ok [], e0)) ∧
    (QueryExecutor.execute e now (.UpdateStatement tname assignments none) =
      (.ok [],
        { tables := alistInsert tname.str
            { t with rows := (t.rows.map (fun r => (r.1,
                applyUpdates (assignments.foldl
                  (fun m a => alistInsert a.1.str a.2 m) []) r.2))) }
            e.tables,
          metadata :=
            if 0 < t.rows.length then
              { e.metadata.update_timestamp now with
                total_rows_updated := e.metadata.total_rows_updated + t.rows.length }
            else e.metadata })) := by
  constructor
  · intro e0 now0 t0
    simp only [QueryExecutor.execute, execute_delete, FileSystem.delete_rows,
      StorageEngine.delete_rows]
    cases hg : alistGet t0.str e0.tables with
    | none => rfl
    | some tb =>
      have hfilter : tb.rows.filter (fun r =>
          !(fun row => match (none : Option WhereCondition) with
            | some c => c.evaluate row
            | none => false) r.2) = tb.rows := by
        simp
      simp only [hfilter, Nat.sub_self, lt_irrefl, if_neg (by omega : ¬ 0 < 0)]
      rw [alistGet_insert_self (v := tb)]
      · rfl
      · exact hg
  · have hctrue : ∀ r : Row, (fun row =>
        match (none : Option WhereCondition) with
        | some c => c.evaluate row
        | none => true) r = true := fun _ => rfl
    have hfind : (assignments.foldl (fun m a => alistInsert a.1.str a.2 m)
        []).find? (fun kv => !t.columns.contains kv.1) = none := by
      refine List.find?_eq_none.2 (fun kv hkv h => ?_)
      rcases mem_foldl_alistInsert hkv with h' | ⟨a, ha, hk⟩
      · cases h'
      · rw [hk, hcols a ha] at h
        simp at h
    have hchk := updatePkCheck_always_true tname.str t
      (assignments.foldl (fun m a => alistInsert a.1.str a.2 m) []) _ hctrue
    have hupd := update_rows_ok_eq e now tname.str
      (assignments.foldl (fun m a => alistInsert a.1.str a.2 m) [])
      (fun row => match (none : Option WhereCondition) with
        | some c => c.evaluate row
        | none => true) t ht hfind hchk
    have hcount : t.rows.countP (fun r =>
        (fun row => match (none : Option WhereCondition) with
          | some c => c.evaluate row
          | none => true) r.2) = t.rows.length := by
      simp
    have hmap : (t.rows.map (fun r =>
        if (fun row => match (none : Option WhereCondition) with
          | some c => c.evaluate row
          | none => true) r.2 then (r.1,
            applyUpdates (assignments.foldl
              (fun m a => alistInsert a.1.str a.2 m) []) r.2) else r)) =
        (t.rows.map (fun r => (r.1,
          applyUpdates (assignments.foldl
            (fun m a => alistInsert a.1.str a.2 m) []) r.2))) := by
      simp
    rw [hcount, hmap] at hupd
    simp only [QueryExecutor.execute, execute_update, FileSystem.update_rows, hupd]

/-- A two-row engine for witnessing the unconditional UPDATE behavior. -/
def C5e : StorageEngine :=
  ⟨[("t", ⟨["v"], [(0, ⟨[("v", "1")]⟩), (1, ⟨[("v", "2")]⟩)], none⟩)],
    ⟨"1.0.0", 0, 0, 0, 0, 0, 0, 0⟩⟩

/-- The table held by `C5e`. -/
def C5table : Table := ⟨["v"], [(0, ⟨[("v", "1")]⟩), (1, ⟨[("v", "2")]⟩)], none⟩

theorem unconditional_delete_noop_update_all_witness :
    alistGet "t" C5e.tables = some C5table ∧
    QueryExecutor.execute C5e 0 (.DeleteStatement ⟨"t"⟩ none) = (.ok [], C5e) ∧
    (QueryExecutor.execute C5e 0 (.UpdateStatement ⟨"t"⟩ [(⟨"v"⟩, "9")] none)).2.tables =
      [("t", ⟨["v"], [(0, ⟨[("v", "9")]⟩), (1, ⟨[("v", "9")]⟩)], none⟩)] ∧
    (QueryExecutor.execute C5e 0 (.UpdateStatement ⟨"t"⟩ [(⟨"v"⟩, "9")] none)).1 = .ok [] := by
  have h := unconditional_delete_noop_update_all C5e 0 ⟨"t"⟩ C5table
    [(⟨"v"⟩, "9")] (by decide) (by decide)
  refine ⟨by decide, h.1 C5e 0 ⟨"t"⟩, ?_, ?_⟩
  · rw [h.2]
    decide
  · rw [h.2]

/-! ### C10: the persistence façade's update result is a synthetic row -/

theorem foldl_alistInsert_eq_append :
    ∀ {l acc : List (String × String)},
      (l.map Prod.fst).Nodup →
      (∀ k ∈ l.map Prod.fst, k ∉ acc.map Prod.fst) →
      l.foldl (fun d kv => alistInsert kv.1 kv.2 d) acc = acc ++ l
  | [], acc, _, _ => by simp
  | kv :: tl, acc, hnd, hdisj => by
    simp only [List.map_cons, List.nodup_cons] at hnd
    simp only [List.foldl_cons]
    have hnin : kv.1 ∉ acc.map Prod.fst := hdisj kv.1 (by simp)
    rw [alistInsert_eq_append hnin,
      foldl_alistInsert_eq_append hnd.2 (fun k hk => ?_), List.append_assoc,
      List.singleton_append]
    simp only [List.map_append, List.map_cons, List.map_nil, List.mem_append,
      List.mem_singleton]
    push_neg
    exact ⟨hdisj k (List.mem_cons_of_mem _ hk), fun he => hnd.1 (he ▸ hk)⟩

/-- Folding `HashMap::insert` over duplicate-free pairs rebuilds the list. -/
theorem buildMap_self {l : List (String × String)}
    (hnd : (l.map Prod.fst).Nodup) :
    l.foldl (fun d kv => alistInsert kv.1 kv.2 d) [] = l := by
  simpa using foldl_alistInsert_eq_append hnd (by simp)

/-- C10: whenever the storage engine's `update_rows` succeeds, the
persistence façade returns exactly one synthetic row whose data is the
updates map itself, whatever the modified count `cnt` was (it is discarded),
and whatever rows were modified. -/
theorem fs_update_rows_dummy_row (e : StorageEngine) (now : Nat)
    (table_name : String) (updates : List (String × String)) (cond : Row → Bool)
    (cnt : Nat) (e' : StorageEngine)
    (hnd : (updates.map Prod.fst).Nodup)
    (h : e.update_rows now table_name updates cond = .ok (cnt, e')) :
    FileSystem.update_rows e now table_name updates cond = (.ok [⟨updates⟩], e') := by
  simp only [FileSystem.update_rows, h, buildMap_self hnd]

/-- A one-row engine for witnessing the synthetic-row result. -/
def C10e : StorageEngine :=
  ⟨[("t", ⟨["v"], [(0, ⟨[("v", "1")]⟩)], none⟩)], ⟨"1.0.0", 0, 0, 0, 0, 0, 0, 0⟩⟩

/-- The engine after updating the single row of `C10e`. -/
def C10after : StorageEngine :=
  ⟨[("t", ⟨["v"], [(0, ⟨[("v", "9")]⟩)], none⟩)], ⟨"1.0.0", 0, 0, 1, 0, 0, 1, 0⟩⟩

/-! ### Planner and optimizer (src/db/query.rs) -/

/-- `PlanningError`. -/
inductive PlanningError where
  | TableNotFound (table : String)
  | ColumnNotFound (column : String)
  | InvalidQuery (msg : String)
  | OptimizationFailed (msg : String)
deriving DecidableEq, Repr

/-- `QueryType`. -/
inductive QueryType where
  | Select
  | Insert
  | Update
  | Delete
deriving DecidableEq, Repr

/-- `ExecutionStep`; the `f64` selectivity is modelled as an exact rational. -/
inductive ExecutionStep where
  | TableScan (table : String) (estimated_rows : Nat)
  | FilterRows (condition : WhereCondition) (estimated_selectivity : ℚ)
  | ProjectColumns (columns : List String)
  | InsertRow (table : String) (columns : List String) (values : List String)
  | UpdateRows (table : String) (assignments : List (String × String))
      (condition : Option WhereCondition)
  | DeleteRows (table : String) (condition : Option WhereCondition)
deriving DecidableEq, Repr

/-- `QueryPlan`; the `f64` cost is modelled as an exact rational. -/
structure QueryPlan where
  query_type : QueryType
  table : Identifier
  projection : Option (List Identifier)
  condition : Option WhereCondition
  assignments : Option (List (Identifier × String))
  insert_data : Option (List Identifier × List String)
  estimated_cost : ℚ
  execution_steps : List ExecutionStep
deriving DecidableEq, Repr

/-- `QueryOptimizer::estimate_selectivity`: the fixed per-operator table. -/
def estimate_selectivity (c : WhereCondition) : ℚ :=
  if c.operator = "=" then 0.1
  else if c.operator = ">" ∨ c.operator = "<" then 0.3
  else if c.operator = ">=" ∨ c.operator = "<=" then 0.4
  else if c.operator = "!=" ∨ c.operator = "<>" then 0.9
  else 0.5

/-- `QueryOptimizer::optimize_where_clause`: append a `FilterRows` step when
a condition is present. -/
def optimize_where_clause (plan : QueryPlan) : QueryPlan :=
  match plan.condition with
  | some condition =>
    { plan with execution_steps := plan.execution_steps ++
        [.FilterRows condition (estimate_selectivity condition)] }
  | none => plan

/-- `QueryOptimizer::optimize_projection`: append a `ProjectColumns` step for
a non-wildcard projection. -/
def optimize_projection (plan : QueryPlan) : QueryPlan :=
  match plan.projection with
  | some projection =>
    if projection.length = 1 ∧ (projection.headD ⟨""⟩).str = "*" then plan
    else { plan with execution_steps := plan.execution_steps ++
        [.ProjectColumns (projection.map Identifier.str)] }
  | none => plan

/-- The per-step contribution inside `QueryOptimizer::estimate_cost`. -/
def stepCost : ExecutionStep → ℚ
  | .TableScan _ estimated_rows => estimated_rows * 0.1
  | .FilterRows _ estimated_selectivity => 100 * (1 - estimated_selectivity)
  | .ProjectColumns columns => columns.length * 0.5
  | .InsertRow _ _ _ => 50
  | .UpdateRows _ _ _ => 75
  | .DeleteRows _ _ => 25

/-- `QueryOptimizer::estimate_cost`: sum the contributions over the steps. -/
def estimate_cost (plan : QueryPlan) : QueryPlan :=
  { plan with estimated_cost :=
      plan.execution_steps.foldl (fun cost s => cost + stepCost s) 0 }

/-- `QueryOptimizer::optimize_plan` (the optimizer flag defaults to true). -/
def QueryOptimizer.optimize_plan (enable_optimizations : Bool)
    (plan : QueryPlan) : QueryPlan :=
  if enable_optimizations then
    estimate_cost (optimize_projection (optimize_where_clause plan))
  else plan

/-- `QueryPlanner::plan`: seed the primary step per statement kind, then run
the optimizer passes. -/
def QueryPlanner.plan (ast : ASTNode) : Except PlanningError QueryPlan :=
  match ast with
  | .SelectStatement projection table condition =>
    .ok (QueryOptimizer.optimize_plan true
      { query_type := .Select, table := table, projection := some projection,
        condition := condition, assignments := none, insert_data := none,
        estimated_cost := 0, execution_steps := [.TableScan table.str 1000] })
  | .InsertStatement table columns values =>
    .ok (QueryOptimizer.optimize_plan true
      { query_type := .Insert, table := table, projection := none,
        condition := none, assignments := none,
        insert_data := some (columns, values), estimated_cost := 0,
        execution_steps :=
          [.InsertRow table.str (columns.map Identifier.str) values] })
  | .UpdateStatement table assignments condition =>
    .ok (QueryOptimizer.optimize_plan true
      { query_type := .Update, table := table, projection := none,
        condition := condition, assignments := some assignments,
        insert_data := none, estimated_cost := 0,
        execution_steps :=
          [.UpdateRows table.str
            (assignments.map (fun a => (a.1.str, a.2))) condition] })
  | .DeleteStatement table condition =>
    .ok (QueryOptimizer.optimize_plan true
      { query_type := .Delete, table := table, projection := none,
        condition := condition, assignments := none, insert_data := none,
        estimated_cost := 0,
        execution_steps := [.DeleteRows table.str condition] })
  | .Identifier _ =>
    .error (.InvalidQuery "Standalone identifier not supported")

/-- The claim's selectivity table, keyed by the operator string. -/
def specSelectivity (op : String) : ℚ :=
  if op = "=" then 0.1
  else if op = ">" ∨ op = "<" then 0.3
  else if op = ">=" ∨ op = "<=" then 0.4
  else if op = "!=" ∨ op = "<>" then 0.9
  else 0.5

/-- The claim's per-step cost contributions. -/
def specStepCost : ExecutionStep → ℚ
  | .TableScan _ estimated_rows => estimated_rows * 0.1
  | .FilterRows _ sel => 100 * (1 - sel)
  | .ProjectColumns columns => 0.5 * columns.length
  | .InsertRow _ _ _ => 50
  | .UpdateRows _ _ _ => 75
  | .DeleteRows _ _ => 25

theorem stepCost_eq_specStepCost (s : ExecutionStep) : stepCost s = specStepCost s := by
  cases s <;> simp [stepCost, specStepCost, mul_comm]

theorem foldl_stepCost (l : List ExecutionStep) :
    ∀ (a : ℚ), l.foldl (fun cost s => cost + stepCost s) a
      = a + (l.map specStepCost).sum := by
  induction l with
  | nil => intro a; simp
  | cons hd tl ih =>
    intro a
    rw [List.foldl_cons, ih, List.map_cons, List.sum_cons,
      stepCost_eq_specStepCost, add_assoc]

theorem optimize_where_clause_condition (p : QueryPlan) :
    (optimize_where_clause p).condition = p.condition := by
  unfold optimize_where_clause
  split <;> rfl

theorem optimize_where_clause_mem {p : QueryPlan} {c : WhereCondition}
    (h : p.condition = some c) :
    ExecutionStep.FilterRows c (estimate_selectivity c)
      ∈ (optimize_where_clause p).execution_steps := by
  unfold optimize_where_clause
  rw [h]
  simp

theorem optimize_projection_condition (p : QueryPlan) :
    (optimize_projection p).condition = p.condition := by
  unfold optimize_projection
  split
  · split <;> rfl
  · rfl

theorem optimize_projection_mem {p : QueryPlan} {s : ExecutionStep}
    (h : s ∈ p.execution_steps) : s ∈ (optimize_projection p).execution_steps := by
  unfold optimize_projection
  split
  · split
    · exact h
    · simp [h]
  · exact h

/-- Both claimed properties hold of any optimized plan. -/
theorem optimized_plan_props (base : QueryPlan) :
    (∀ c, (QueryOptimizer.optimize_plan true base).condition = some c →
      ExecutionStep.FilterRows c (specSelectivity c.operator)
        ∈ (QueryOptimizer.optimize_plan true base).execution_steps) ∧
    (QueryOptimizer.optimize_plan true base).estimated_cost =
      ((QueryOptimizer.optimize_plan true base).execution_steps.map specStepCost).sum := by
  have hplan : QueryOptimizer.optimize_plan true base
      = estimate_cost (optimize_projection (optimize_where_clause base)) := rfl
  constructor
  · intro c hc
    rw [hplan] at hc ⊢
    have hc' : base.condition = some c := by
      rw [← optimize_where_clause_condition base,
        ← optimize_projection_condition (optimize_where_clause base)]
      exact hc
    have hmem := optimize_projection_mem (p := optimize_where_clause base)
      (optimize_where_clause_mem hc')
    show ExecutionStep.FilterRows c (specSelectivity c.operator)
      ∈ (optimize_projection (optimize_where_clause base)).execution_steps
    have hsel : estimate_selectivity c = specSelectivity c.operator := rfl
    rw [← hsel]
    exact hmem
  · rw [hplan]
    show (optimize_projection (optimize_where_clause base)).execution_steps.foldl
        (fun cost s => cost + stepCost s) 0 =
      ((optimize_projection (optimize_where_clause base)).execution_steps.map
        specStepCost).sum
    rw [foldl_stepCost, zero_add]

/-- C8: for every plan the planner produces, a present WHERE condition
contributes a `FilterRows` step carrying exactly the fixed selectivity table
value for its operator (0.1 for `=`, 0.3 for `>`/`<`, 0.4 for `>=`/`<=`,
0.9 for `!=`/`<>`, 0.5 otherwise), and the plan's estimated cost equals the
sum over its steps of rows×0.1 for `TableScan`, 100×(1−selectivity) for
`FilterRows`, 0.5 per column for `ProjectColumns`, 50 for `InsertRow`, 75
for `UpdateRows` and 25 for `DeleteRows`. -/
theorem plan_selectivity_and_cost (ast : ASTNode) (p : QueryPlan)
    (h : QueryPlanner.plan ast = .ok p) :
    (∀ c, p.condition = some c →
      ExecutionStep.FilterRows c (specSelectivity c.operator) ∈ p.execution_steps) ∧
    p.estimated_cost = (p.execution_steps.map specStepCost).sum := by
  cases ast with
  | SelectStatement projection table condition =>
    simp only [QueryPlanner.plan] at h
    injection h with hh
    subst hh
    exact optimized_plan_props _
  | DeleteStatement table condition =>
    simp only [QueryPlanner.plan] at h
    injection h with hh
    subst hh
    exact optimized_plan_props _
  | UpdateStatement table assignments condition =>
    simp only [QueryPlanner.plan] at h
    injection h with hh
    subst hh
    exact optimized_plan_props _
  | InsertStatement table columns values =>
    simp only [QueryPlanner.plan] at h
    injection h with hh
    subst hh
    exact optimized_plan_props _
  | Identifier name =>
    simp only [QueryPlanner.plan] at h
    cases h

/-- A SELECT with projection and `>=` condition, for the planner witness. -/
def C8ast : ASTNode :=
  .SelectStatement [⟨"name"⟩] ⟨"t"⟩ (some ⟨"age", ">=", "30"⟩)

/-- The plan computed for `C8ast`. -/
def C8plan : QueryPlan :=
  match QueryPlanner.plan C8ast with
  | .ok p => p
  | .error _ => ⟨.Select, ⟨""⟩, none, none, none, none, 0, []⟩

theorem plan_selectivity_and_cost_witness :
    QueryPlanner.plan C8ast = .ok C8plan ∧
    ExecutionStep.FilterRows ⟨"age", ">=", "30"⟩ (specSelectivity ">=")
      ∈ C8plan.execution_steps ∧
    C8plan.estimated_cost = (C8plan.execution_steps.map specStepCost).sum :=
  ⟨by rfl,
    (plan_selectivity_and_cost C8ast C8plan (by rfl)).1 ⟨"age", ">=", "30"⟩ (by rfl),
    (plan_selectivity_and_cost C8ast C8plan (by rfl)).2⟩

theorem fs_update_rows_dummy_row_witness :
    (([("v", "9")] : List (String × String)).map Prod.fst).Nodup ∧
    C10e.update_rows 0 "t" [("v", "9")] (fun _ => true) = .ok (1, C10after) ∧
    FileSystem.update_rows C10e 0 "t" [("v", "9")] (fun _ => true) =
      (.ok [⟨[("v", "9")]⟩], C10after) :=
  ⟨by decide, by rfl,
    fs_update_rows_dummy_row C10e 0 "t" [("v", "9")] (fun _ => true) 1 C10after
      (by decide) (by rfl)⟩

/-! ### The nom-style parser (src/db/parser.rs)

A nom parser over `&str` is modelled as a function from the remaining input
to an optional (remaining, value) pair; `Err` (nom's `Error`/`Failure`, which
this grammar does not distinguish: all its combinators backtrack through
`alt`) is `none`. -/

/-- A parser in the nom style: input to optional (rest, value). -/
def PM (α : Type) : Type := List Char → Option (List Char × α)

instance : Monad PM where
  pure a := fun s => some (s, a)
  bind p f := fun s =>
    match p s with
    | some (s1, a) => f a s1
    | none => none

/-- nom `alt` over two parsers: try the first, backtrack to the second. -/
def porelse {α : Type} (p q : PM α) : PM α := fun s =>
  match p s with
  | some r => some r
  | none => q s

/-- nom `map`. -/
def pmap {α β : Type} (f : α → β) (p : PM α) : PM β := fun s =>
  (p s).map (fun r => (r.1, f r.2))

/-- nom `opt`: never fails, consumes nothing on inner failure. -/
def popt {α : Type} (p : PM α) : PM (Option α) := fun s =>
  match p s with
  | some (s1, a) => some (s1, some a)
  | none => some (s, none)

/-- Match a literal prefix, returning the rest. -/
def ptagAux : List Char → List Char → Option (List Char)
  | [], s => some s
  | _ :: _, [] => none
  | c :: t, d :: s => if d = c then ptagAux t s else none

/-- nom `tag`. -/
def ptag (t : String) : PM (List Char) := fun s =>
  (ptagAux t.data s).map (fun r => (r, t.data))

/-- Match a literal prefix ignoring case, returning the rest. -/
def ptagNoCaseAux : List Char → List Char → Option (List Char)
  | [], s => some s
  | _ :: _, [] => none
  | c :: t, d :: s => if d.toLower = c.toLower then ptagNoCaseAux t s else none

/-- nom `tag_no_case`. -/
def ptagNoCase (t : String) : PM (List Char) := fun s =>
  (ptagNoCaseAux t.data s).map (fun r => (r, t.data))

/-- nom `alphanumeric1`: one or more ASCII alphanumeric characters. -/
def palphanumeric1 : PM (List Char) := fun s =>
  let pre := s.takeWhile Char.isAlphanum
  if pre.isEmpty then none else some (s.drop pre.length, pre)

/-- The characters nom's `multispace0/1` accept. -/
def isNomSpace (c : Char) : Bool :=
  c == ' ' || c == '\t' || c == '\r' || c == '\n'

/-- nom `multispace0`. -/
def pmultispace0 : PM (List Char) := fun s =>
  some (s.dropWhile isNomSpace, s.takeWhile isNomSpace)

/-- nom `multispace1`. -/
def pmultispace1 : PM (List Char) := fun s =>
  let pre := s.takeWhile isNomSpace
  if pre.isEmpty then none else some (s.drop pre.length, pre)

/-- nom `char`. -/
def pchar (c : Char) : PM Char := fun s =>
  match s with
  | d :: r => if d = c then some (r, c) else none
  | [] => none

/-- nom (complete) `take_until` for a one-character tag: the consumed text up
to, not including, the first occurrence; error when it never occurs. -/
def ptakeUntilChar (c : Char) : PM (List Char)
  | [] => none
  | d :: r =>
    if d = c then some (d :: r, [])
    else (ptakeUntilChar c r).map (fun x => (x.1, d :: x.2))

/-- The loop of nom `separated_list0`: repeatedly separator then element,
stopping (without consuming the separator) as soon as either fails. Fueled;
every separator of this grammar consumes at least one character, so the
initial fuel `input.length` is never exhausted. -/
def separated_list0Loop {α β : Type} (sep : PM α) (elem : PM β) :
    Nat → List Char → List β → Option (List Char × List β)
  | 0, s, acc => some (s, acc.reverse)
  | fuel + 1, s, acc =>
    match sep s with
    | none => some (s, acc.reverse)
    | some (s1, _) =>
      match elem s1 with
      | none => some (s, acc.reverse)
      | some (s2, b) => separated_list0Loop sep elem fuel s2 (b :: acc)

/-- nom `separated_list0`. -/
def separated_list0 {α β : Type} (sep : PM α) (elem : PM β) : PM (List β) := fun s =>
  match elem s with
  | none => some (s, [])
  | some (s1, b) => separated_list0Loop sep elem s1.length s1 [b]

namespace Parser

/-- `Parser::identifier`. -/
def identifier : PM Identifier :=
  pmap (fun s => Identifier.mk s.asString) palphanumeric1

/-- `Parser::quoted_string`. -/
def quoted_string : PM (List Char) := do
  _ ← pchar '\''
  let content ← ptakeUntilChar '\''
  _ ← pchar '\''
  pure content

/-- `Parser::value`: a quoted string or a bare alphanumeric token. -/
def value : PM String :=
  porelse (pmap List.asString quoted_string) (pmap List.asString palphanumeric1)

/-- `Parser::projection_list`. -/
def projection_list : PM (List Identifier) :=
  separated_list0
    (do
      _ ← pmultispace0
      let c ← ptag ","
      _ ← pmultispace0
      pure c)
    identifier

/-- `Parser::parse_where_condition`; two-character operators first. -/
def parse_where_condition : PM WhereCondition := do
  let column ← palphanumeric1
  _ ← pmultispace0
  let operator ← porelse (ptag ">=") (porelse (ptag "<=") (porelse (ptag "!=")
    (porelse (ptag "<>") (porelse (ptag "=") (porelse (ptag ">") (ptag "<"))))))
  _ ← pmultispace0
  let v ← value
  pure ⟨column.asString, operator.asString, v⟩

/-- `Parser::select_statement`. -/
def select_statement : PM ASTNode := do
  _ ← ptagNoCase "SELECT"
  _ ← pmultispace1
  let projection ← porelse (pmap (fun _ => [Identifier.mk "*"]) (ptag "*"))
    projection_list
  _ ← pmultispace1
  _ ← ptagNoCase "FROM"
  _ ← pmultispace1
  let table ← identifier
  let condition ← popt (do
    _ ← pmultispace1
    _ ← ptagNoCase "WHERE"
    _ ← pmultispace1
    parse_where_condition)
  pure (.SelectStatement projection table condition)

/-- `Parser::delete_statement`. -/
def delete_statement : PM ASTNode := do
  _ ← ptagNoCase "DELETE"
  _ ← pmultispace1
  _ ← ptagNoCase "FROM"
  _ ← pmultispace1
  let table ← identifier
  let condition ← popt (do
    _ ← pmultispace1
    _ ← ptagNoCase "WHERE"
    _ ← pmultispace1
    parse_where_condition)
  pure (.DeleteStatement table condition)

/-- `Parser::update_statement`. -/
def update_statement : PM ASTNode := do
  _ ← ptagNoCase "UPDATE"
  _ ← pmultispace1
  let table ← identifier
  _ ← pmultispace1
  _ ← ptagNoCase "SET"
  _ ← pmultispace1
  let assignments ← separated_list0
    (do
      _ ← pmultispace0
      let c ← ptag ","
      _ ← pmultispace0
      pure c)
    (do
      let col ← identifier
      _ ← pmultispace0
      _ ← ptag "="
      _ ← pmultispace0
      let v ← value
      pure (col, v))
  let condition ← popt (do
    _ ← pmultispace1
    _ ← ptagNoCase "WHERE"
    _ ← pmultispace1
    parse_where_condition)
  pure (.UpdateStatement table assignments condition)

/-- `Parser::insert_statement`. -/
def insert_statement : PM ASTNode := do
  _ ← ptagNoCase "INSERT"
  _ ← pmultispace1
  _ ← ptagNoCase "INTO"
  _ ← pmultispace1
  let table ← identifier
  let columns ← popt (do
    _ ← pmultispace0
    _ ← pchar '('
    let cols ← separated_list0
      (do
        _ ← pmultispace0
        let c ← pchar ','
        _ ← pmultispace0
        pure c)
      identifier
    _ ← pmultispace0
    _ ← pchar ')'
    pure cols)
  _ ← pmultispace1
  _ ← ptagNoCase "VALUES"
  _ ← pmultispace0
  _ ← pchar '('
  let values ← separated_list0
    (do
      _ ← pmultispace0
      let c ← pchar ','
      _ ← pmultispace0
      pure c)
    value
  _ ← pchar ')'
  pure (.InsertStatement table (columns.getD []) values)

/-- The `alt` over the four statement parsers, in source order. -/
def statements : PM ASTNode :=
  porelse select_statement
    (porelse delete_statement (porelse update_statement insert_statement))

/-- `Parser::parse`: trim, parse one statement, demand the rest be
whitespace. (The nom error's debug formatting is collapsed to a fixed
message.) -/
def parse (input : String) : Except String ASTNode :=
  match statements (rustTrim input.data) with
  | some (remaining, ast) =>
    if (rustTrim remaining).isEmpty then .ok ast
    else .error ("Unexpected input after query: '" ++ remaining.asString ++ "'")
  | none => .error "Parse error"

end Parser

/-- C7: `Parser::parse` first trims the input and returns an AST exactly when
the statement parser consumes the whole trimmed input up to whitespace: a
success implies that what the statement parser left over trims to nothing,
and whenever non-whitespace input remains after a parsed statement the
result is an error (and hence no AST). -/
theorem parse_trims_and_consumes_all (input : String) :
    (∀ ast, Parser.parse input = .ok ast →
      ∃ rem, Parser.statements (rustTrim input.data) = some (rem, ast) ∧
        rustTrim rem = []) ∧
    (∀ rem ast, Parser.statements (rustTrim input.data) = some (rem, ast) →
      rustTrim rem ≠ [] →
      Parser.parse input =
        .error ("Unexpected input after query: '" ++ rem.asString ++ "'")) := by
  unfold Parser.parse
  cases hs : Parser.statements (rustTrim input.data) with
  | none =>
    constructor
    · intro ast h
      cases h
    · intro rem ast h
      cases h
  | some r =>
    obtain ⟨rem0, ast0⟩ := r
    constructor
    · intro ast h
      dsimp only at h
      by_cases he : (rustTrim rem0).isEmpty
      · rw [if_pos he] at h
        injection h with hh
        exact ⟨rem0, by rw [hh], List.isEmpty_iff.1 he⟩
      · rw [if_neg he] at h
        cases h
    · intro rem ast h hne
      injection h with hh
      have h1 : rem = rem0 := (congrArg Prod.fst hh).symm
      subst h1
      dsimp only
      rw [if_neg (by simpa [List.isEmpty_iff] using hne)]

/-- The statement parser leaves `" extra"` behind on this input, whose trim
is non-empty, so `parse` reports the trailing input. -/
theorem parse_trims_and_consumes_all_witness :
    Parser.parse "SELECT * FROM t extra" =
      .error ("Unexpected input after query: '" ++ (" extra".data).asString ++ "'") :=
  (parse_trims_and_consumes_all "SELECT * FROM t extra").2 " extra".data
    (.SelectStatement [⟨"*"⟩] ⟨"t"⟩ none) (by rfl) (by decide)

/-! ### C4: the binary snapshot (serialize / deserialize)

`StorageEngine::serialize`/`deserialize` delegate to the external `bincode`
crate, whose code is not part of this repository. Modelled from the spec:
"a length-prefixed, little-endian, fixed-width-integer serialization of the
storage engine value (tables map + metadata)" (§6, "an implementation must
choose one concrete serialization"; bincode's wire format is exactly
length-prefixed little-endian fixed-width integers). Bytes are `Nat`s below
256; `u64`/`usize` fields are 8 bytes, a char's code point 4 bytes; every
sequence is prefixed with its `u64` length; an `Option` is a tag byte. -/

/-- The `k` little-endian base-256 digits of `n`. -/
def natLE : Nat → Nat → List Nat
  | 0, _ => []
  | k + 1, n => n % 256 :: natLE k (n / 256)

/-- Recombine little-endian base-256 digits. -/
def leToNat : List Nat → Nat
  | [] => 0
  | b :: bs => b + 256 * leToNat bs

/-- Take exactly `k` bytes from the buffer. -/
def readBytes : Nat → List Nat → Option (List Nat × List Nat)
  | 0, s => some ([], s)
  | _ + 1, [] => none
  | k + 1, b :: s => (readBytes k s).map (fun r => (b :: r.1, r.2))

/-- Modelled from the spec: a `u64` as 8 little-endian bytes. -/
def writeU64 (n : Nat) : List Nat := natLE 8 n

def readU64 (s : List Nat) : Option (Nat × List Nat) :=
  (readBytes 8 s).map (fun r => (leToNat r.1, r.2))

/-- Modelled from the spec: a character as its 32-bit code point. -/
def writeChar (c : Char) : List Nat := natLE 4 c.toNat

def readChar (s : List Nat) : Option (Char × List Nat) :=
  (readBytes 4 s).map (fun r => (Char.ofNat (leToNat r.1), r.2))

def readChars : Nat → List Nat → Option (List Char × List Nat)
  | 0, s => some ([], s)
  | k + 1, s =>
    match readChar s with
    | none => none
    | some (c, s1) => (readChars k s1).map (fun r => (c :: r.1, r.2))

/-- Modelled from the spec: a string as a length prefix and its characters. -/
def writeString (s : String) : List Nat :=
  writeU64 s.data.length ++ (s.data.map writeChar).flatten

def readString (s : List Nat) : Option (String × List Nat) := do
  let (k, s1) ← readU64 s
  let (cs, s2) ← readChars k s1
  pure (String.mk cs, s2)

/-- Modelled from the spec: a sequence as a length prefix and its items. -/
def writeListP {α : Type} (wr : α → List Nat) (l : List α) : List Nat :=
  writeU64 l.length ++ (l.map wr).flatten

def readListCnt {α : Type} (rd : List Nat → Option (α × List Nat)) :
    Nat → List Nat → Option (List α × List Nat)
  | 0, s => some ([], s)
  | k + 1, s =>
    match rd s with
    | none => none
    | some (a, s1) => (readListCnt rd k s1).map (fun r => (a :: r.1, r.2))

def readListP {α : Type} (rd : List Nat → Option (α × List Nat))
    (s : List Nat) : Option (List α × List Nat) := do
  let (k, s1) ← readU64 s
  readListCnt rd k s1

/-- Modelled from the spec: an `Option` as a tag byte and the payload. -/
def writeOptionP {α : Type} (wr : α → List Nat) : Option α → List Nat
  | none => [0]
  | some x => 1 :: wr x

def readOptionP {α : Type} (rd : List Nat → Option (α × List Nat)) :
    List Nat → Option (Option α × List Nat)
  | [] => none
  | b :: s =>
    if b = 0 then some (none, s)
    else if b = 1 then (rd s).map (fun r => (some r.1, r.2))
    else none

/-- A map entry: key string then value string. -/
def writeStrPair (kv : String × String) : List Nat :=
  writeString kv.1 ++ writeString kv.2

def readStrPair (s : List Nat) : Option ((String × String) × List Nat) := do
  let (a, s1) ← readString s
  let (b, s2) ← readString s1
  pure ((a, b), s2)

/-- Modelled from the spec: a row is its column-to-value map. -/
def writeRow (r : Row) : List Nat := writeListP writeStrPair r.data

def readRow (s : List Nat) : Option (Row × List Nat) := do
  let (d, s1) ← readListP readStrPair s
  pure (Row.mk d, s1)

/-- A rows-map entry: `u64` row id then the row. -/
def writeRowEntry (e : Nat × Row) : List Nat := writeU64 e.1 ++ writeRow e.2

def readRowEntry (s : List Nat) : Option ((Nat × Row) × List Nat) := do
  let (id, s1) ← readU64 s
  let (r, s2) ← readRow s1
  pure ((id, r), s2)

/-- Modelled from the spec: a table is its columns, rows map and optional
primary key. -/
def writeTable (t : Table) : List Nat :=
  writeListP writeString t.columns ++ writeListP writeRowEntry t.rows ++
    writeOptionP writeString t.primary_key

def readTable (s : List Nat) : Option (Table × List Nat) := do
  let (columns, s1) ← readListP readString s
  let (rows, s2) ← readListP readRowEntry s1
  let (primary_key, s3) ← readOptionP readString s2
  pure (Table.mk columns rows primary_key, s3)

/-- A catalog entry: table name then the table. -/
def writeTableEntry (p : String × Table) : List Nat :=
  writeString p.1 ++ writeTable p.2

def readTableEntry (s : List Nat) : Option ((String × Table) × List Nat) := do
  let (name, s1) ← readString s
  let (t, s2) ← readTable s1
  pure ((name, t), s2)

/-- Modelled from the spec: the metadata record, version string then the
seven `u64` counters in declaration order. -/
def writeMetadata (m : StorageMetadata) : List Nat :=
  writeString m.version ++ writeU64 m.created_at ++ writeU64 m.last_modified ++
    writeU64 m.total_operations ++ writeU64 m.total_tables_created ++
    writeU64 m.total_rows_inserted ++ writeU64 m.total_rows_updated ++
    writeU64 m.total_rows_deleted

def readMetadata (s : List Nat) : Option (StorageMetadata × List Nat) := do
  let (version, s1) ← readString s
  let (created_at, s2) ← readU64 s1
  let (last_modified, s3) ← readU64 s2
  let (total_operations, s4) ← readU64 s3
  let (total_tables_created, s5) ← readU64 s4
  let (total_rows_inserted, s6) ← readU64 s5
  let (total_rows_updated, s7) ← readU64 s6
  let (total_rows_deleted, s8) ← readU64 s7
  pure (StorageMetadata.mk version created_at last_modified total_operations
    total_tables_created total_rows_inserted total_rows_updated
    total_rows_deleted, s8)

/-- Modelled from the spec: `StorageEngine::serialize` — the whole engine,
tables map then metadata (the Rust method clears the caller's buffer and
extends it with exactly these bytes). -/
def serializeEngine (e : StorageEngine) : List Nat :=
  writeListP writeTableEntry e.tables ++ writeMetadata e.metadata

def readEngine (s : List Nat) : Option (StorageEngine × List Nat) := do
  let (tables, s1) ← readListP readTableEntry s
  let (metadata, s2) ← readMetadata s1
  pure (StorageEngine.mk tables metadata, s2)

/-- Modelled from the spec: `StorageEngine::deserialize`. -/
def deserializeEngine (buffer : List Nat) : Option StorageEngine :=
  (readEngine buffer).map (fun r => r.1)

/-- All length prefixes and `u64` fields of the value fit in a `u64` (true
of every state a real engine can reach: its counters are `u64` and a
process's collections are far smaller than 2^64). -/
def wfStr (s : String) : Bool := decide (s.data.length < 2^64)

def wfRow (r : Row) : Bool :=
  decide (r.data.length < 2^64) &&
    r.data.all (fun kv => wfStr kv.1 && wfStr kv.2)

def wfTable (t : Table) : Bool :=
  decide (t.columns.length < 2^64) && t.columns.all wfStr &&
  decide (t.rows.length < 2^64) &&
  t.rows.all (fun e => decide (e.1 < 2^64) && wfRow e.2) &&
  t.primary_key.all wfStr

def wfMetadata (m : StorageMetadata) : Bool :=
  wfStr m.version && decide (m.created_at < 2^64) &&
  decide (m.last_modified < 2^64) && decide (m.total_operations < 2^64) &&
  decide (m.total_tables_created < 2^64) &&
  decide (m.total_rows_inserted < 2^64) &&
  decide (m.total_rows_updated < 2^64) && decide (m.total_rows_deleted < 2^64)

def wfEngine (e : StorageEngine) : Bool :=
  decide (e.tables.length < 2^64) &&
  e.tables.all (fun p => wfStr p.1 && wfTable p.2) &&
  wfMetadata e.metadata

theorem natLE_length : ∀ (k n : Nat), (natLE k n).length = k
  | 0, _ => rfl
  | k + 1, n => by simp [natLE, natLE_length k]

theorem leToNat_natLE : ∀ (k n : Nat), n < 256^k → leToNat (natLE k n) = n
  | 0, n, h => by
    interval_cases n
    rfl
  | k + 1, n, h => by
    have hd : n / 256 < 256^k := by
      rw [Nat.div_lt_iff_lt_mul (by omega : 0 < 256)]
      calc n < 256^(k+1) := h
      _ = 256^k * 256 := by rw [Nat.pow_succ]
    simp only [natLE, leToNat, leToNat_natLE k (n / 256) hd]
    exact Nat.mod_add_div n 256

theorem readBytes_append : ∀ (bs rest : List Nat),
    readBytes bs.length (bs ++ rest) = some (bs, rest)
  | [], rest => rfl
  | b :: t, rest => by
    simp [readBytes, readBytes_append t rest]

theorem readU64_writeU64 {n : Nat} (h : n < 2^64) (rest : List Nat) :
    readU64 (writeU64 n ++ rest) = some (n, rest) := by
  have hrb := readBytes_append (natLE 8 n) rest
  rw [natLE_length 8 n] at hrb
  unfold readU64 writeU64
  rw [hrb]
  simp [leToNat_natLE 8 n (by norm_num at h ⊢; omega)]

theorem char_toNat_lt (c : Char) : c.toNat < 256^4 := by
  have h := c.val.val.isLt
  simp only [Char.toNat, UInt32.toNat]
  norm_num
  omega

theorem readChar_writeChar (c : Char) (rest : List Nat) :
    readChar (writeChar c ++ rest) = some (c, rest) := by
  have hrb := readBytes_append (natLE 4 c.toNat) rest
  rw [natLE_length 4 c.toNat] at hrb
  unfold readChar writeChar
  rw [hrb]
  simp [leToNat_natLE 4 c.toNat (char_toNat_lt c)]

theorem readChars_append : ∀ (l : List Char) (rest : List Nat),
    readChars l.length ((l.map writeChar).flatten ++ rest) = some (l, rest)
  | [], rest => rfl
  | c :: t, rest => by
    simp only [List.length_cons, List.map_cons, List.flatten_cons, List.append_assoc,
      readChars, readChar_writeChar c ((t.map writeChar).flatten ++ rest)]
    simp [readChars_append t rest]

theorem readString_writeString {s : String} (h : s.data.length < 2^64)
    (rest : List Nat) : readString (writeString s ++ rest) = some (s, rest) := by
  unfold readString writeString
  rw [List.append_assoc, readU64_writeU64 h]
  simp only [Option.bind_eq_bind, Option.some_bind]
  rw [readChars_append s.data rest]
  rfl

theorem readListCnt_append {α : Type} {rd : List Nat → Option (α × List Nat)}
    {wr : α → List Nat} :
    ∀ {l : List α} (rest : List Nat),
      (∀ x ∈ l, ∀ r, rd (wr x ++ r) = some (x, r)) →
      readListCnt rd l.length ((l.map wr).flatten ++ rest) = some (l, rest)
  | [], rest, _ => rfl
  | x :: t, rest, hrw => by
    simp only [List.length_cons, List.map_cons, List.flatten_cons, List.append_assoc,
      readListCnt, hrw x (List.mem_cons_self _ _) ((t.map wr).flatten ++ rest)]
    simp [readListCnt_append rest (fun y hy => hrw y (List.mem_cons_of_mem _ hy))]

theorem readListP_writeListP {α : Type} {rd : List Nat → Option (α × List Nat)}
    {wr : α → List Nat} {l : List α} (hlen : l.length < 2^64)
    (hrw : ∀ x ∈ l, ∀ r, rd (wr x ++ r) = some (x, r)) (rest : List Nat) :
    readListP rd (writeListP wr l ++ rest) = some (l, rest) := by
  unfold readListP writeListP
  rw [List.append_assoc, readU64_writeU64 hlen]
  simp [readListCnt_append rest hrw]

theorem readOptionP_writeOptionP {α : Type} {rd : List Nat → Option (α × List Nat)}
    {wr : α → List Nat} {o : Option α}
    (hrw : ∀ x ∈ o, ∀ r, rd (wr x ++ r) = some (x, r)) (rest : List Nat) :
    readOptionP rd (writeOptionP wr o ++ rest) = some (o, rest) := by
  cases o with
  | none => rfl
  | some x =>
    simp only [writeOptionP, List.cons_append, readOptionP, if_neg (by omega : ¬ (1:Nat) = 0),
      if_pos rfl]
    simp [hrw x (by simp)]

theorem readStrPair_write {kv : String × String}
    (h1 : kv.1.data.length < 2^64) (h2 : kv.2.data.length < 2^64)
    (rest : List Nat) : readStrPair (writeStrPair kv ++ rest) = some (kv, rest) := by
  unfold readStrPair writeStrPair
  rw [List.append_assoc, readString_writeString h1]
  simp [readString_writeString h2]

theorem readRow_write {r : Row} (h : wfRow r = true) (rest : List Nat) :
    readRow (writeRow r ++ rest) = some (r, rest) := by
  simp only [wfRow, Bool.and_eq_true, decide_eq_true_eq, List.all_eq_true] at h
  unfold readRow writeRow
  rw [readListP_writeListP h.1 (fun kv hkv rr => by
    have := h.2 kv hkv
    simp only [Bool.and_eq_true, wfStr, decide_eq_true_eq] at this
    exact readStrPair_write this.1 this.2 rr)]
  simp

theorem readRowEntry_write {e : Nat × Row} (hid : e.1 < 2^64)
    (hr : wfRow e.2 = true) (rest : List Nat) :
    readRowEntry (writeRowEntry e ++ rest) = some (e, rest) := by
  unfold readRowEntry writeRowEntry
  rw [List.append_assoc, readU64_writeU64 hid]
  simp [readRow_write hr]

theorem readTable_write {t : Table} (h : wfTable t = true) (rest : List Nat) :
    readTable (writeTable t ++ rest) = some (t, rest) := by
  simp only [wfTable, Bool.and_eq_true, decide_eq_true_eq, List.all_eq_true] at h
  obtain ⟨⟨⟨⟨hcl, hcw⟩, hrl⟩, hrw⟩, hpk⟩ := h
  have hcols : ∀ c ∈ t.columns, ∀ r, readString (writeString c ++ r) = some (c, r) :=
    fun c hc r => readString_writeString (by simpa [wfStr] using hcw c hc) r
  have hrows : ∀ e ∈ t.rows, ∀ r, readRowEntry (writeRowEntry e ++ r) = some (e, r) := by
    intro e he r
    have h2 := hrw e he
    simp only [Bool.and_eq_true, decide_eq_true_eq] at h2
    exact readRowEntry_write h2.1 h2.2 r
  have hpk2 : ∀ x ∈ t.primary_key, ∀ r,
      readString (writeString x ++ r) = some (x, r) := by
    intro x hx r
    rw [Option.mem_def] at hx
    rw [hx] at hpk
    simp only [Option.all] at hpk
    exact readString_writeString (by simpa [wfStr] using hpk) r
  unfold readTable writeTable
  simp [List.append_assoc, readListP_writeListP hcl hcols,
    readListP_writeListP hrl hrows, readOptionP_writeOptionP hpk2]

theorem readTableEntry_write {p : String × Table}
    (hn : p.1.data.length < 2^64) (ht : wfTable p.2 = true) (rest : List Nat) :
    readTableEntry (writeTableEntry p ++ rest) = some (p, rest) := by
  unfold readTableEntry writeTableEntry
  rw [List.append_assoc, readString_writeString hn]
  simp [readTable_write ht]

theorem readMetadata_write {m : StorageMetadata} (h : wfMetadata m = true)
    (rest : List Nat) : readMetadata (writeMetadata m ++ rest) = some (m, rest) := by
  simp only [wfMetadata, Bool.and_eq_true, decide_eq_true_eq, wfStr] at h
  obtain ⟨⟨⟨⟨⟨⟨⟨hv, h1⟩, h2⟩, h3⟩, h4⟩, h5⟩, h6⟩, h7⟩ := h
  unfold readMetadata writeMetadata
  simp [List.append_assoc, readString_writeString hv, readU64_writeU64 h1,
    readU64_writeU64 h2, readU64_writeU64 h3, readU64_writeU64 h4,
    readU64_writeU64 h5, readU64_writeU64 h6, readU64_writeU64 h7]

/-- C4: for every engine state whose length prefixes and counters fit a
`u64` (every reachable state does), deserializing the serialization yields
the state back, every metadata field included. -/
theorem deserialize_serialize_roundtrip (e : StorageEngine)
    (h : wfEngine e = true) : deserializeEngine (serializeEngine e) = some e := by
  simp only [wfEngine, Bool.and_eq_true, decide_eq_true_eq, List.all_eq_true] at h
  obtain ⟨⟨hlen, htabs⟩, hmeta⟩ := h
  have htabs2 : ∀ p ∈ e.tables, ∀ r,
      readTableEntry (writeTableEntry p ++ r) = some (p, r) := by
    intro p hp r
    have h2 := htabs p hp
    simp only [Bool.and_eq_true, wfStr, decide_eq_true_eq] at h2
    exact readTableEntry_write h2.1 h2.2 r
  have hmain : ∀ r, readEngine (serializeEngine e ++ r) = some (e, r) := by
    intro r
    unfold readEngine serializeEngine
    simp [List.append_assoc, readListP_writeListP hlen htabs2, readMetadata_write hmeta]
  have hm0 := hmain []
  rw [List.append_nil] at hm0
  simp [deserializeEngine, hm0]

/-- A concrete one-table engine round-trips. -/
def C4e : StorageEngine :=
  ⟨[("t", ⟨["k", "v"], [(0, ⟨[("k", "1"), ("v", "a")]⟩)], some "k"⟩)],
    ⟨"1.0.0", 5, 7, 3, 1, 1, 0, 0⟩⟩

theorem deserialize_serialize_roundtrip_witness :
    wfEngine C4e = true ∧ deserializeEngine (serializeEngine C4e) = some C4e :=
  ⟨by decide, deserialize_serialize_roundtrip C4e (by decide)⟩

end HyperVault
